import Mathlib

set_option autoImplicit false

namespace ClaudeCacheProxy

/-- Python runtime values, as manipulated by the proxy's message normalizer.
A Python `dict` is insertion-ordered, modelled as an association list. -/
inductive PyVal : Type where
  | none
  | bool (b : Bool)
  | int (n : Int)
  | str (s : String)
  | list (xs : List PyVal)
  | dict (kvs : List (String × PyVal))
  deriving Repr, Inhabited

mutual

/-- Boolean equality on Python values (needed because automatic deriving does not
handle the nested occurrence of `PyVal` under `List`). -/
def PyVal.beq : PyVal → PyVal → Bool
  | .none, .none => true
  | .bool a, .bool b => a == b
  | .int a, .int b => a == b
  | .str a, .str b => a == b
  | .list xs, .list ys => PyVal.beqList xs ys
  | .dict xs, .dict ys => PyVal.beqDict xs ys
  | _, _ => false

def PyVal.beqList : List PyVal → List PyVal → Bool
  | [], [] => true
  | a :: as, b :: bs => PyVal.beq a b && PyVal.beqList as bs
  | _, _ => false

def PyVal.beqDict : List (String × PyVal) → List (String × PyVal) → Bool
  | [], [] => true
  | (k, v) :: as, (l, w) :: bs => k == l && PyVal.beq v w && PyVal.beqDict as bs
  | _, _ => false

end

mutual

theorem PyVal.beq_iff : ∀ a b : PyVal, PyVal.beq a b = true ↔ a = b
  | .none, .none => by simp [PyVal.beq]
  | .bool a, .bool b => by simp [PyVal.beq]
  | .int a, .int b => by simp [PyVal.beq]
  | .str a, .str b => by simp [PyVal.beq]
  | .list xs, .list ys => by
    simp only [PyVal.beq, PyVal.beqList_iff xs ys, PyVal.list.injEq]
  | .dict xs, .dict ys => by
    simp only [PyVal.beq, PyVal.beqDict_iff xs ys, PyVal.dict.injEq]
  | .none, .bool _ | .none, .int _ | .none, .str _ | .none, .list _ | .none, .dict _
  | .bool _, .none | .bool _, .int _ | .bool _, .str _ | .bool _, .list _ | .bool _, .dict _
  | .int _, .none | .int _, .bool _ | .int _, .str _ | .int _, .list _ | .int _, .dict _
  | .str _, .none | .str _, .bool _ | .str _, .int _ | .str _, .list _ | .str _, .dict _
  | .list _, .none | .list _, .bool _ | .list _, .int _ | .list _, .str _ | .list _, .dict _
  | .dict _, .none | .dict _, .bool _ | .dict _, .int _ | .dict _, .str _ | .dict _, .list _ => by
    simp [PyVal.beq]

theorem PyVal.beqList_iff : ∀ xs ys : List PyVal, PyVal.beqList xs ys = true ↔ xs = ys
  | [], [] => by simp [PyVal.beqList]
  | a :: as, b :: bs => by
    simp only [PyVal.beqList, Bool.and_eq_true, PyVal.beq_iff a b,
      PyVal.beqList_iff as bs, List.cons.injEq]
  | [], _ :: _ => by simp [PyVal.beqList]
  | _ :: _, [] => by simp [PyVal.beqList]

theorem PyVal.beqDict_iff :
    ∀ xs ys : List (String × PyVal), PyVal.beqDict xs ys = true ↔ xs = ys
  | [], [] => by simp [PyVal.beqDict]
  | (k, v) :: as, (l, w) :: bs => by
    simp only [PyVal.beqDict, Bool.and_eq_true, beq_iff_eq, PyVal.beq_iff v w,
      PyVal.beqDict_iff as bs, List.cons.injEq, Prod.mk.injEq]
  | [], _ :: _ => by simp [PyVal.beqDict]
  | _ :: _, [] => by simp [PyVal.beqDict]

end

instance : DecidableEq PyVal := fun a b => decidable_of_iff _ (PyVal.beq_iff a b)

/-- A Python dict (string keys), in insertion order. -/
abbrev PyDict := List (String × PyVal)

/-- `d.get(k)` / `k in d`: first binding of `k` (a well-formed Python dict has unique keys). -/
def dictGet (d : PyDict) (k : String) : Option PyVal :=
  (d.find? (fun p => p.1 == k)).map (·.2)

/-- `d.get(k, default)`. -/
def dictGetD (d : PyDict) (k : String) (v : PyVal) : PyVal :=
  (dictGet d k).getD v

/-- `k in d`. -/
def dictHas (d : PyDict) (k : String) : Bool :=
  d.any (fun p => p.1 == k)

/-- `del d[k]` / the dict comprehension `{a: v for a, v in d.items() if a != k}`:
drops every binding of `k`, keeping the order of the rest. -/
def dictErase (d : PyDict) (k : String) : PyDict :=
  d.filter (fun p => p.1 != k)

/-- `d[k] = v`: replaces the (first) binding of `k` in place, or appends a new
binding at the end, as CPython's insertion-ordered dicts do. -/
def dictSet : PyDict → String → PyVal → PyDict
  | [], k, v => [(k, v)]
  | p :: rest, k, v => if p.1 == k then (k, v) :: rest else p :: dictSet rest k v

/-- Python truthiness (`bool(v)`), as used by `if content[-1]:`. -/
def pyTruthy : PyVal → Bool
  | .none => false
  | .bool b => b
  | .int n => n != 0
  | .str s => !s.isEmpty
  | .list xs => !xs.isEmpty
  | .dict kvs => !kvs.isEmpty

/-- `repr(v)`, CPython-style (string escaping inside `repr` of a `str` is elided;
no theorem below depends on the rendered text). -/
def pyRepr : PyVal → String
  | .none => "None"
  | .bool true => "True"
  | .bool false => "False"
  | .int n => toString n
  | .str s => "'" ++ s ++ "'"
  | .list xs =>
    "[" ++ String.intercalate ", " (xs.attach.map (fun x => pyRepr x.1)) ++ "]"
  | .dict kvs =>
    "\x7b" ++ String.intercalate ", "
      (kvs.attach.map (fun p => "'" ++ p.1.1 ++ "': " ++ pyRepr p.1.2)) ++ "\x7d"
decreasing_by
  · have := List.sizeOf_lt_of_mem x.2
    simp only [PyVal.list.sizeOf_spec]
    omega
  · have h1 := List.sizeOf_lt_of_mem p.2
    have h2 : sizeOf p.1.2 < sizeOf p.1 := by
      obtain ⟨a, b⟩ := p.1
      simp only [Prod.mk.sizeOf_spec]
      omega
    simp only [PyVal.dict.sizeOf_spec]
    omega

/-- `str(v)`, as used by `str(content[-1])`. -/
def pyStr : PyVal → String
  | .str s => s
  | v => pyRepr v

/- ### Request normalizer (`_standardize_cache_control` / `_add_cache_control_to_messages`)

The two proxy variants contain the same normalizer line for line; the only
difference is the cache directive value they attach (with or without `"ttl"`).
The shared body is embedded once, parameterized by that directive, and each
source function is a wrapper fixing its directive. -/

/-- A message, i.e. a Python dict (`{"role": ..., "content": ...}`). -/
abbrev Msg := PyDict

/-- The cache directive attached by the TTL-aware variant:
`{"type": "ephemeral", "ttl": self.cache_control_ttl}`. -/
def ccWithTtl (ttl : String) : PyVal :=
  .dict [("type", .str "ephemeral"), ("ttl", .str ttl)]

/-- The cache directive attached by the TTL-less variant: `{"type": "ephemeral"}`. -/
def ccBare : PyVal :=
  .dict [("type", .str "ephemeral")]

/-- Stripping pass over one content block:
`{k: v for k, v in content_block.items() if k != 'cache_control'}` for dict
blocks; any other block is passed through unchanged. -/
def cleanBlock (b : PyVal) : PyVal :=
  match b with
  | .dict kvs => .dict (dictErase kvs "cache_control")
  | _ => b

/-- Stripping pass over one message: shallow-copy, drop a message-level
`cache_control`, and if the content (defaulting to `[]` when the key is
absent) is a list, rebuild it from cleaned blocks and store it back. -/
def cleanMessage (m : Msg) : Msg :=
  let m1 := dictErase m "cache_control"
  match dictGetD m "content" (.list []) with
  | .list xs => dictSet m1 "content" (.list (xs.map cleanBlock))
  | _ => m1

/-- The synthesized text block `{"type": "text", "text": text, "cache_control": cc}`. -/
def newTextBlock (text : String) (cc : PyVal) : PyVal :=
  .dict [("type", .str "text"), ("text", .str text), ("cache_control", cc)]

/-- Attach step on the last message's content when it is a nonempty (cleaned)
block list: set the directive on a dict last block, append a synthesized text
block after a non-dict last block. -/
def attachToBlocks (cc : PyVal) (xs : List PyVal) : List PyVal :=
  match xs.getLast? with
  | Option.some (.dict kvs) => xs.dropLast ++ [.dict (dictSet kvs "cache_control" cc)]
  | Option.some b => xs ++ [newTextBlock (if pyTruthy b then pyStr b else "") cc]
  | Option.none => xs

/-- Attach step on the last (already cleaned) message. When the content is an
empty block list the message is returned unchanged: the source builds a
replacement list but only rebinds the local variable `content`
(`content = [{...}]`), never storing it back into the message; nonempty lists
are mutated in place, which a value model renders as storing the updated
list. -/
def attachCC (cc : PyVal) (m : Msg) : Msg :=
  match dictGetD m "content" (.list []) with
  | .list [] => m
  | .list xs => dictSet m "content" (.list (attachToBlocks cc xs))
  | .str s => dictSet m "content" (.list [newTextBlock s cc])
  | _ => dictSet m "content" (.list [newTextBlock "" cc])

/-- `standardized_messages[-1] = ...`: apply `f` to the last element. -/
def mapLast (f : Msg → Msg) : List Msg → List Msg
  | [] => []
  | [m] => [f m]
  | m :: rest => m :: mapLast f rest

/-- Shared body of the normalizer: strip every message, then attach the
directive to the last one. An empty input is returned unchanged. -/
def normalizeMessages (cc : PyVal) (msgs : List Msg) : List Msg :=
  if msgs.isEmpty then msgs
  else mapLast (attachCC cc) (msgs.map cleanMessage)

/-- `AnthropicRequestHandler._standardize_cache_control` (TTL-aware variant). -/
def standardizeCacheControl (ttl : String) (msgs : List Msg) : List Msg :=
  normalizeMessages (ccWithTtl ttl) msgs

/-- `OpenAIRequestHandler._add_cache_control_to_messages` (TTL-less variant). -/
def addCacheControlToMessages (msgs : List Msg) : List Msg :=
  normalizeMessages ccBare msgs

/- ### Cache-directive counting and placement -/

/-- Does a content block carry a `cache_control` field? -/
def blockHasCC (b : PyVal) : Bool :=
  match b with
  | .dict kvs => dictHas kvs "cache_control"
  | _ => false

/-- Number of cache directives attached to one message (message level plus
every content-block level). -/
def msgCCCount (m : Msg) : Nat :=
  (if dictHas m "cache_control" then 1 else 0) +
  (match dictGetD m "content" (.list []) with
   | .list xs => (xs.filter blockHasCC).length
   | _ => 0)

/-- Total number of cache directives in a message sequence. -/
def totalCC (msgs : List Msg) : Nat :=
  (msgs.map msgCCCount).sum

/-- The directive carried by a block, if any. -/
def blockCC (b : PyVal) : Option PyVal :=
  match b with
  | .dict kvs => dictGet kvs "cache_control"
  | _ => Option.none

/- ### Dictionary lemmas -/

theorem dictHas_iff (d : PyDict) (k : String) :
    dictHas d k = true ↔ ∃ p ∈ d, p.1 = k := by
  simp [dictHas, List.any_eq_true]

theorem dictHas_erase (d : PyDict) (k : String) : dictHas (dictErase d k) k = false := by
  rw [Bool.eq_false_iff]
  intro h
  obtain ⟨p, hp, hk⟩ := (dictHas_iff _ _).mp h
  have := (List.mem_filter.mp hp).2
  simp [hk] at this

theorem dictGet_cons_of_eq (p : String × PyVal) (rest : PyDict) (k : String)
    (h : p.1 = k) : dictGet (p :: rest) k = Option.some p.2 := by
  unfold dictGet
  rw [List.find?_cons_of_pos _ (by simp [h])]
  rfl

theorem dictGet_cons_of_ne (p : String × PyVal) (rest : PyDict) (k : String)
    (h : p.1 ≠ k) : dictGet (p :: rest) k = dictGet rest k := by
  unfold dictGet
  rw [List.find?_cons_of_neg _ (by simp [h])]

theorem dictHas_cons (p : String × PyVal) (rest : PyDict) (k : String) :
    dictHas (p :: rest) k = ((p.1 == k) || dictHas rest k) := by
  simp [dictHas]

theorem dictErase_cons_of_eq (p : String × PyVal) (rest : PyDict) (k : String)
    (h : p.1 = k) : dictErase (p :: rest) k = dictErase rest k := by
  unfold dictErase
  rw [List.filter_cons_of_neg (by simp [h])]

theorem dictErase_cons_of_ne (p : String × PyVal) (rest : PyDict) (k : String)
    (h : p.1 ≠ k) : dictErase (p :: rest) k = p :: dictErase rest k := by
  unfold dictErase
  rw [List.filter_cons_of_pos (by simp [h])]

theorem dictSet_cons_of_eq (p : String × PyVal) (rest : PyDict) (k : String) (v : PyVal)
    (h : p.1 = k) : dictSet (p :: rest) k v = (k, v) :: rest := by
  simp [dictSet, h]

theorem dictSet_cons_of_ne (p : String × PyVal) (rest : PyDict) (k : String) (v : PyVal)
    (h : p.1 ≠ k) : dictSet (p :: rest) k v = p :: dictSet rest k v := by
  simp [dictSet, h]

theorem dictHas_erase_ne (d : PyDict) (k k' : String) (h : k' ≠ k) :
    dictHas (dictErase d k) k' = dictHas d k' := by
  induction d with
  | nil => rfl
  | cons p rest ih =>
    by_cases hp : p.1 = k
    · rw [dictErase_cons_of_eq p rest k hp, ih, dictHas_cons]
      have : (p.1 == k') = false := by simp [hp, Ne.symm h]
      rw [this, Bool.false_or]
    · rw [dictErase_cons_of_ne p rest k hp, dictHas_cons, dictHas_cons, ih]

theorem dictGet_erase_ne (d : PyDict) (k k' : String) (h : k' ≠ k) :
    dictGet (dictErase d k) k' = dictGet d k' := by
  induction d with
  | nil => rfl
  | cons p rest ih =>
    by_cases hp : p.1 = k
    · have hpk : p.1 ≠ k' := by rw [hp]; exact Ne.symm h
      rw [dictErase_cons_of_eq p rest k hp, ih, dictGet_cons_of_ne p rest k' hpk]
    · by_cases hq : p.1 = k'
      · rw [dictErase_cons_of_ne p rest k hp, dictGet_cons_of_eq _ _ _ hq,
          dictGet_cons_of_eq _ _ _ hq]
      · rw [dictErase_cons_of_ne p rest k hp, dictGet_cons_of_ne _ _ _ hq,
          dictGet_cons_of_ne _ _ _ hq, ih]

theorem dictGet_set_self (d : PyDict) (k : String) (v : PyVal) :
    dictGet (dictSet d k v) k = Option.some v := by
  induction d with
  | nil => simp [dictSet, dictGet, List.find?_cons]
  | cons p rest ih =>
    by_cases hp : p.1 = k
    · rw [dictSet_cons_of_eq p rest k v hp, dictGet_cons_of_eq _ _ _ rfl]
    · rw [dictSet_cons_of_ne p rest k v hp, dictGet_cons_of_ne _ _ _ hp, ih]

theorem dictGet_set_ne (d : PyDict) (k k' : String) (v : PyVal) (h : k' ≠ k) :
    dictGet (dictSet d k v) k' = dictGet d k' := by
  induction d with
  | nil =>
    show dictGet [(k, v)] k' = Option.none
    rw [dictGet_cons_of_ne _ _ _ (Ne.symm h)]
    rfl
  | cons p rest ih =>
    by_cases hp : p.1 = k
    · have hpk : p.1 ≠ k' := by rw [hp]; exact Ne.symm h
      rw [dictSet_cons_of_eq p rest k v hp, dictGet_cons_of_ne _ _ _ (Ne.symm h),
        dictGet_cons_of_ne _ _ _ hpk]
    · by_cases hq : p.1 = k'
      · rw [dictSet_cons_of_ne p rest k v hp, dictGet_cons_of_eq _ _ _ hq,
          dictGet_cons_of_eq _ _ _ hq]
      · rw [dictSet_cons_of_ne p rest k v hp, dictGet_cons_of_ne _ _ _ hq,
          dictGet_cons_of_ne _ _ _ hq, ih]

theorem dictHas_eq_isSome (d : PyDict) (k : String) :
    dictHas d k = (dictGet d k).isSome := by
  induction d with
  | nil => rfl
  | cons p rest ih =>
    by_cases hp : p.1 = k
    · rw [dictHas_cons, dictGet_cons_of_eq _ _ _ hp]
      simp [hp]
    · rw [dictHas_cons, dictGet_cons_of_ne _ _ _ hp, ih]
      simp [hp]

theorem dictHas_set_ne (d : PyDict) (k k' : String) (v : PyVal) (h : k' ≠ k) :
    dictHas (dictSet d k v) k' = dictHas d k' := by
  rw [dictHas_eq_isSome, dictHas_eq_isSome, dictGet_set_ne d k k' v h]

theorem dictHas_set_self (d : PyDict) (k : String) (v : PyVal) :
    dictHas (dictSet d k v) k = true := by
  rw [dictHas_eq_isSome, dictGet_set_self]
  rfl

theorem dictSet_same (d : PyDict) (k : String) (v : PyVal)
    (h : dictGet d k = Option.some v) : dictSet d k v = d := by
  induction d with
  | nil => simp [dictGet] at h
  | cons p rest ih =>
    by_cases hp : p.1 = k
    · rw [dictGet_cons_of_eq _ _ _ hp] at h
      rw [dictSet_cons_of_eq p rest k v hp]
      obtain ⟨a, b⟩ := p
      simp only at hp
      simp only [Option.some.injEq] at h
      rw [hp, h]
    · rw [dictGet_cons_of_ne _ _ _ hp] at h
      rw [dictSet_cons_of_ne p rest k v hp, ih h]

theorem dictErase_of_not_has (d : PyDict) (k : String) (h : dictHas d k = false) :
    dictErase d k = d := by
  apply List.filter_eq_self.mpr
  intro p hp
  rw [Bool.eq_false_iff] at h
  simp only [bne_iff_ne, ne_eq]
  intro hk
  exact h ((dictHas_iff d k).mpr ⟨p, hp, hk⟩)

theorem dictErase_set_of_not_has (d : PyDict) (k : String) (v : PyVal)
    (h : dictHas d k = false) : dictErase (dictSet d k v) k = d := by
  induction d with
  | nil =>
    show dictErase [(k, v)] k = []
    rw [dictErase_cons_of_eq _ _ _ rfl]
    rfl
  | cons p rest ih =>
    rw [dictHas_cons, Bool.or_eq_false_iff] at h
    obtain ⟨h1, h2⟩ := h
    rw [beq_eq_false_iff_ne] at h1
    rw [dictSet_cons_of_ne p rest k v h1, dictErase_cons_of_ne p _ k h1, ih h2]

theorem dictGetD_eq (d : PyDict) (k : String) (v : PyVal) :
    dictGetD d k v = (dictGet d k).getD v := rfl

/- ### Normalizer structure lemmas -/

theorem cleanBlock_not_hasCC (b : PyVal) : blockHasCC (cleanBlock b) = false := by
  cases b <;> simp [cleanBlock, blockHasCC, dictHas_erase]

theorem cleanBlock_idem (b : PyVal) : cleanBlock (cleanBlock b) = cleanBlock b := by
  cases b <;> simp [cleanBlock]
  case dict kvs => exact dictErase_of_not_has _ _ (dictHas_erase kvs _)

theorem cleanMessage_not_hasCC (m : Msg) :
    dictHas (cleanMessage m) "cache_control" = false := by
  unfold cleanMessage
  rcases hv : dictGetD m "content" (.list []) with _ | b | n | s | xs | kvs
  case list =>
    rw [dictHas_set_ne _ _ _ _ (by decide), dictHas_erase]
  all_goals exact dictHas_erase m _

theorem cleanMessage_content (m : Msg) :
    dictGetD (cleanMessage m) "content" (.list []) =
      (match dictGetD m "content" (.list []) with
       | .list xs => .list (xs.map cleanBlock)
       | v => v) := by
  unfold cleanMessage
  have herase : dictGetD (dictErase m "cache_control") "content" (.list []) =
      dictGetD m "content" (.list []) := by
    rw [dictGetD_eq, dictGetD_eq, dictGet_erase_ne m _ _ (by decide)]
  rcases hv : dictGetD m "content" (.list []) with _ | b | n | s | xs | kvs
  case list =>
    rw [dictGetD_eq, dictGet_set_self]
    rfl
  all_goals rw [herase, hv]

theorem msgCCCount_cleanMessage (m : Msg) : msgCCCount (cleanMessage m) = 0 := by
  unfold msgCCCount
  rw [cleanMessage_not_hasCC, cleanMessage_content]
  rcases hv : dictGetD m "content" (.list []) with _ | b | n | s | xs | kvs
  case list =>
    simp only [if_false, Nat.zero_add]
    have : (xs.map cleanBlock).filter blockHasCC = [] := by
      rw [List.filter_eq_nil_iff]
      intro b hb
      obtain ⟨a, _, rfl⟩ := List.mem_map.mp hb
      simp [cleanBlock_not_hasCC]
    simp [this]
  all_goals simp

theorem mapLast_concat (f : Msg → Msg) (l : List Msg) (m : Msg) :
    mapLast f (l ++ [m]) = l ++ [f m] := by
  induction l with
  | nil => rfl
  | cons a rest ih =>
    cases rest with
    | nil => rfl
    | cons b rest2 =>
      simp only [List.cons_append, mapLast, List.append_eq] at ih ⊢
      rw [ih]

theorem normalizeMessages_concat (cc : PyVal) (l : List Msg) (m : Msg) :
    normalizeMessages cc (l ++ [m]) =
      (l.map cleanMessage) ++ [attachCC cc (cleanMessage m)] := by
  unfold normalizeMessages
  rw [if_neg (by simp)]
  rw [List.map_append, List.map_cons, List.map_nil, mapLast_concat]

theorem attachToBlocks_concat_dict (cc : PyVal) (ys : List PyVal) (kvs : PyDict) :
    attachToBlocks cc (ys ++ [.dict kvs]) =
      ys ++ [.dict (dictSet kvs "cache_control" cc)] := by
  unfold attachToBlocks
  rw [List.getLast?_concat, List.dropLast_concat]

theorem attachToBlocks_concat_nondict (cc b : PyVal) (ys : List PyVal)
    (hb : ∀ kvs, b ≠ .dict kvs) :
    attachToBlocks cc (ys ++ [b]) =
      (ys ++ [b]) ++ [newTextBlock (if pyTruthy b then pyStr b else "") cc] := by
  unfold attachToBlocks
  rw [List.getLast?_concat]
  cases b with
  | dict kvs => exact absurd rfl (hb kvs)
  | none => rfl
  | bool x => rfl
  | int x => rfl
  | str x => rfl
  | list x => rfl

theorem attachCC_of_content_cons (cc : PyVal) (m : Msg) (hd : PyVal) (tl : List PyVal)
    (h : dictGetD m "content" (.list []) = .list (hd :: tl)) :
    attachCC cc m = dictSet m "content" (.list (attachToBlocks cc (hd :: tl))) := by
  unfold attachCC
  rw [h]

theorem attachCC_of_content_empty (cc : PyVal) (m : Msg)
    (h : dictGetD m "content" (.list []) = .list []) : attachCC cc m = m := by
  unfold attachCC
  rw [h]

theorem attachCC_of_content_str (cc : PyVal) (m : Msg) (s : String)
    (h : dictGetD m "content" (.list []) = .str s) :
    attachCC cc m = dictSet m "content" (.list [newTextBlock s cc]) := by
  unfold attachCC
  rw [h]

theorem attachCC_of_content_other (cc : PyVal) (m : Msg)
    (hl : ∀ xs, dictGetD m "content" (.list []) ≠ .list xs)
    (hs : ∀ s, dictGetD m "content" (.list []) ≠ .str s) :
    attachCC cc m = dictSet m "content" (.list [newTextBlock "" cc]) := by
  unfold attachCC
  rcases hv : dictGetD m "content" (.list []) with _ | b | n | s | xs | kvs
  · rfl
  · rfl
  · rfl
  · exact absurd hv (hs s)
  · exact absurd hv (hl xs)
  · rfl

/-- `{"type": "text", "text": t, "cache_control": cc}` carries exactly the
directive `cc`. -/
theorem blockCC_newTextBlock (t : String) (cc : PyVal) :
    blockCC (newTextBlock t cc) = Option.some cc := by
  show dictGet [("type", PyVal.str "text"), ("text", PyVal.str t), ("cache_control", cc)]
      "cache_control" = Option.some cc
  rw [dictGet_cons_of_ne _ _ _ (show ("type" : String) ≠ "cache_control" by decide),
    dictGet_cons_of_ne _ _ _ (show ("text" : String) ≠ "cache_control" by decide),
    dictGet_cons_of_eq _ _ _ rfl]

theorem blockHasCC_newTextBlock (t : String) (cc : PyVal) :
    blockHasCC (newTextBlock t cc) = true := by
  show dictHas [("type", PyVal.str "text"), ("text", PyVal.str t), ("cache_control", cc)]
      "cache_control" = true
  rw [dictHas_eq_isSome,
    dictGet_cons_of_ne _ _ _ (show ("type" : String) ≠ "cache_control" by decide),
    dictGet_cons_of_ne _ _ _ (show ("text" : String) ≠ "cache_control" by decide),
    dictGet_cons_of_eq _ _ _ rfl]
  rfl

/-- Splitting `msgCCCount m = 0` into its two components. -/
theorem msgCCCount_eq_zero (m : Msg) (h : msgCCCount m = 0) :
    dictHas m "cache_control" = false ∧
    ∀ xs, dictGetD m "content" (.list []) = .list xs → ∀ b ∈ xs, blockHasCC b = false := by
  unfold msgCCCount at h
  constructor
  · cases hcc : dictHas m "cache_control"
    · rfl
    · rw [hcc] at h
      simp at h
  · intro xs hxs b hb
    rw [hxs] at h
    simp only [Nat.add_eq_zero] at h
    have h2 : xs.filter blockHasCC = [] := List.length_eq_zero.mp h.2
    cases hc : blockHasCC b
    · rfl
    · exact absurd (List.mem_filter.mpr ⟨hb, hc⟩) (by simp [h2])

theorem msgCCCount_set_content_list (m : Msg) (xs : List PyVal)
    (hno : dictHas m "cache_control" = false) :
    msgCCCount (dictSet m "content" (.list xs)) = (xs.filter blockHasCC).length := by
  unfold msgCCCount
  rw [dictHas_set_ne _ _ _ _ (by decide), hno, dictGetD_eq, dictGet_set_self]
  simp

theorem filter_blockHasCC_append_one (ys : List PyVal) (b : PyVal)
    (hys : ∀ x ∈ ys, blockHasCC x = false) (hb : blockHasCC b = true) :
    (ys ++ [b]).filter blockHasCC = [b] := by
  have h1 : ys.filter blockHasCC = [] := List.filter_eq_nil_iff.mpr (by
    intro x hx
    simp [hys x hx])
  rw [List.filter_append, h1, List.nil_append]
  simp [List.filter_cons, hb]
theorem dictGetD_set_self (m : PyDict) (k : String) (v d : PyVal) :
    dictGetD (dictSet m k v) k d = v := by
  rw [dictGetD_eq, dictGet_set_self]
  rfl

/-- The one fact C1 needs about the rebuilt last message: no message-level
directive survives, there is at most one directive in total, and any block
directive is exactly the policy directive sitting on the final block. -/
theorem attachCC_tail_ok (cc : PyVal) (m : Msg) (h : msgCCCount m = 0) :
    dictHas (attachCC cc m) "cache_control" = false ∧
    msgCCCount (attachCC cc m) ≤ 1 ∧
    ∀ xs, dictGetD (attachCC cc m) "content" (.list []) = .list xs →
      (∀ b ∈ xs.dropLast, blockHasCC b = false) ∧
      (∀ b, xs.getLast? = Option.some b →
        blockCC b = Option.none ∨ blockCC b = Option.some cc) := by
  obtain ⟨hno, hclean⟩ := msgCCCount_eq_zero m h
  rcases hv : dictGetD m "content" (.list []) with _ | bv | n | s | xs | kvs
  case list =>
    have hblocks : ∀ b ∈ xs, blockHasCC b = false := hclean xs hv
    cases xs with
    | nil =>
      rw [attachCC_of_content_empty cc m hv]
      refine ⟨hno, by omega, ?_⟩
      intro zs hzs
      rw [hv] at hzs
      cases hzs
      simp
    | cons hd tl =>
      rcases List.eq_nil_or_concat (hd :: tl) with habs | ⟨ys, blast, hcat⟩
      · cases habs
      rw [List.concat_eq_append] at hcat
      rw [attachCC_of_content_cons cc m hd tl hv, hcat]
      have hys : ∀ b ∈ ys, blockHasCC b = false := fun b hb =>
        hblocks b (hcat ▸ List.mem_append_left _ hb)
      by_cases hdict : ∃ dkvs, blast = PyVal.dict dkvs
      · obtain ⟨dkvs, rfl⟩ := hdict
        rw [attachToBlocks_concat_dict]
        have hlastcc : blockCC (.dict (dictSet dkvs "cache_control" cc)) = Option.some cc :=
          dictGet_set_self dkvs _ cc
        have hlasthas : blockHasCC (.dict (dictSet dkvs "cache_control" cc)) = true := by
          show dictHas (dictSet dkvs "cache_control" cc) "cache_control" = true
          exact dictHas_set_self dkvs _ cc
        refine ⟨by rw [dictHas_set_ne _ _ _ _ (by decide), hno], ?_, ?_⟩
        · rw [msgCCCount_set_content_list m _ hno,
            filter_blockHasCC_append_one ys _ hys hlasthas]
          simp
        · intro zs hzs
          rw [dictGetD_set_self] at hzs
          cases hzs
          constructor
          · intro b hb
            rw [List.dropLast_concat] at hb
            exact hys b hb
          · intro b hb
            rw [List.getLast?_concat] at hb
            cases hb
            exact Or.inr hlastcc
      · have hnd : ∀ dkvs, blast ≠ PyVal.dict dkvs := fun dkvs hk => hdict ⟨dkvs, hk⟩
        rw [attachToBlocks_concat_nondict cc blast ys hnd]
        have hall : ∀ b ∈ ys ++ [blast], blockHasCC b = false := hcat ▸ hblocks
        refine ⟨by rw [dictHas_set_ne _ _ _ _ (by decide), hno], ?_, ?_⟩
        · rw [msgCCCount_set_content_list m _ hno,
            filter_blockHasCC_append_one _ _ hall (blockHasCC_newTextBlock _ cc)]
          simp
        · intro zs hzs
          rw [dictGetD_set_self] at hzs
          cases hzs
          constructor
          · intro b hb
            rw [List.dropLast_concat] at hb
            exact hall b hb
          · intro b hb
            rw [List.getLast?_concat] at hb
            cases hb
            exact Or.inr (blockCC_newTextBlock _ cc)
  case str =>
    rw [attachCC_of_content_str cc m s hv]
    refine ⟨by rw [dictHas_set_ne _ _ _ _ (by decide), hno], ?_, ?_⟩
    · rw [msgCCCount_set_content_list m _ hno]
      simp [List.filter_cons, blockHasCC_newTextBlock]
    · intro zs hzs
      rw [dictGetD_set_self] at hzs
      cases hzs
      constructor
      · intro b hb
        simp at hb
      · intro b hb
        simp at hb
        cases hb
        exact Or.inr (blockCC_newTextBlock _ cc)
  all_goals (
    rw [attachCC_of_content_other cc m
      (by intro zs hzs; rw [hv] at hzs; cases hzs)
      (by intro t hzs; rw [hv] at hzs; cases hzs)]
    refine ⟨by rw [dictHas_set_ne _ _ _ _ (by decide), hno], ?_, ?_⟩
    · rw [msgCCCount_set_content_list m _ hno]
      simp [List.filter_cons, blockHasCC_newTextBlock]
    · intro zs hzs
      rw [dictGetD_set_self] at hzs
      cases hzs
      constructor
      · intro b hb
        simp at hb
      · intro b hb
        simp at hb
        cases hb
        exact Or.inr (blockCC_newTextBlock _ cc))

/-- Placement invariant: no message-level directive anywhere, no directive in
any non-last message, and in the last message any block directive is the policy
directive `cc` on the final content block. -/
def CCTailOnly (cc : PyVal) (msgs : List Msg) : Prop :=
  (∀ m ∈ msgs, dictHas m "cache_control" = false) ∧
  (∀ m ∈ msgs.dropLast, msgCCCount m = 0) ∧
  (∀ m, msgs.getLast? = Option.some m →
    ∀ xs, dictGetD m "content" (.list []) = .list xs →
      (∀ b ∈ xs.dropLast, blockHasCC b = false) ∧
      (∀ b, xs.getLast? = Option.some b →
        blockCC b = Option.none ∨ blockCC b = Option.some cc))

theorem normalize_tail_only (cc : PyVal) (msgs : List Msg) :
    totalCC (normalizeMessages cc msgs) ≤ 1 ∧
    CCTailOnly cc (normalizeMessages cc msgs) := by
  rcases List.eq_nil_or_concat msgs with rfl | ⟨l, m, hcat⟩
  · constructor
    · simp [normalizeMessages, totalCC]
    · refine ⟨?_, ?_, ?_⟩ <;> simp [normalizeMessages, CCTailOnly]
  · rw [List.concat_eq_append] at hcat
    subst hcat
    rw [normalizeMessages_concat]
    obtain ⟨h1, h2, h3⟩ := attachCC_tail_ok cc (cleanMessage m) (msgCCCount_cleanMessage m)
    constructor
    · unfold totalCC
      rw [List.map_append, List.sum_append]
      have hz : ((l.map cleanMessage).map msgCCCount).sum = 0 := by
        apply List.sum_eq_zero
        intro x hx
        simp only [List.map_map, List.mem_map, Function.comp] at hx
        obtain ⟨a, _, rfl⟩ := hx
        exact msgCCCount_cleanMessage a
      rw [hz, Nat.zero_add]
      simpa using h2
    · refine ⟨?_, ?_, ?_⟩
      · intro mm hmm
        rcases List.mem_append.mp hmm with hmem | hmem
        · obtain ⟨a, _, rfl⟩ := List.mem_map.mp hmem
          exact cleanMessage_not_hasCC a
        · rw [List.mem_singleton] at hmem
          subst hmem
          exact h1
      · intro mm hmm
        rw [List.dropLast_concat] at hmm
        obtain ⟨a, _, rfl⟩ := List.mem_map.mp hmm
        exact msgCCCount_cleanMessage a
      · intro mm hmm
        rw [List.getLast?_concat] at hmm
        cases hmm
        exact h3

/-- C1: after normalization — by either variant — the message sequence carries
at most one cache directive; when one is present it is the policy directive on
the last content block of the last message, every message-level directive and
every stray block-level directive of the input having been stripped. -/
theorem c1_normalize_single_directive_at_tail (ttl : String) (msgs : List Msg) :
    (totalCC (standardizeCacheControl ttl msgs) ≤ 1 ∧
      CCTailOnly (ccWithTtl ttl) (standardizeCacheControl ttl msgs)) ∧
    (totalCC (addCacheControlToMessages msgs) ≤ 1 ∧
      CCTailOnly ccBare (addCacheControlToMessages msgs)) :=
  ⟨normalize_tail_only (ccWithTtl ttl) msgs, normalize_tail_only ccBare msgs⟩

/-- C7 evidence: on a last message whose content is the empty block list, both
normalizers return the message unchanged — no synthesized text block and no
cache directive appear, because the source only rebinds its local `content`
variable in that branch. -/
theorem c7_empty_content_kept_empty :
    standardizeCacheControl "1h" [[("role", .str "user"), ("content", .list [])]]
        = [[("role", .str "user"), ("content", .list [])]] ∧
    totalCC (standardizeCacheControl "1h"
        [[("role", .str "user"), ("content", .list [])]]) = 0 ∧
    addCacheControlToMessages [[("role", .str "user"), ("content", .list [])]]
        = [[("role", .str "user"), ("content", .list [])]] ∧
    totalCC (addCacheControlToMessages
        [[("role", .str "user"), ("content", .list [])]]) = 0 := by
  refine ⟨?_, ?_, ?_, ?_⟩ <;> rfl

/- ### Idempotency (C8) -/

theorem dictSet_set (d : PyDict) (k : String) (v w : PyVal) :
    dictSet (dictSet d k v) k w = dictSet d k w := by
  induction d with
  | nil => simp [dictSet]
  | cons p rest ih =>
    by_cases hp : p.1 = k
    · rw [dictSet_cons_of_eq p rest k v hp, dictSet_cons_of_eq _ _ _ _ rfl,
        dictSet_cons_of_eq p rest k w hp]
    · rw [dictSet_cons_of_ne p rest k v hp, dictSet_cons_of_ne p (dictSet rest k v) k w hp,
        dictSet_cons_of_ne p rest k w hp, ih]

theorem dictHas_of_erase_eq (d : PyDict) (k : String) (h : dictErase d k = d) :
    dictHas d k = false := by
  cases hc : dictHas d k
  · rfl
  · obtain ⟨p, hp, hk⟩ := (dictHas_iff d k).mp hc
    have hmem : p ∈ dictErase d k := by rw [h]; exact hp
    have := (List.mem_filter.mp hmem).2
    simp [hk] at this

theorem map_eq_self_of_eq {α : Type} (f : α → α) (l : List α) (h : l.map f = l) :
    ∀ x ∈ l, f x = x := by
  induction l with
  | nil => intro x hx; cases hx
  | cons a rest ih =>
    rw [List.map_cons, List.cons.injEq] at h
    intro x hx
    rcases List.mem_cons.mp hx with rfl | hx2
    · exact h.1
    · exact ih h.2 x hx2

theorem cleanBlock_newTextBlock (t : String) (cc : PyVal) :
    cleanBlock (newTextBlock t cc) =
      .dict [("type", .str "text"), ("text", .str t)] := rfl

theorem dictSet_typeText (t : String) (cc : PyVal) :
    dictSet [("type", .str "text"), ("text", .str t)] "cache_control" cc
      = [("type", .str "text"), ("text", .str t), ("cache_control", cc)] := rfl

/-- A message in the image of the stripping pass: no message-level directive,
and a list content is a fixed point of block-cleaning with its key present. -/
def IsCleanMsg (n : Msg) : Prop :=
  dictHas n "cache_control" = false ∧
  ∀ xs, dictGetD n "content" (.list []) = .list xs →
    xs.map cleanBlock = xs ∧ dictGet n "content" = Option.some (.list xs)

theorem cleanMessage_of_content_list (m : Msg) (ys : List PyVal)
    (h : dictGetD m "content" (.list []) = .list ys) :
    cleanMessage m =
      dictSet (dictErase m "cache_control") "content" (.list (ys.map cleanBlock)) := by
  unfold cleanMessage
  rw [h]

theorem cleanMessage_of_content_nonlist (m : Msg)
    (h : ∀ ys, dictGetD m "content" (.list []) ≠ .list ys) :
    cleanMessage m = dictErase m "cache_control" := by
  unfold cleanMessage
  rcases hv : dictGetD m "content" (.list []) with _ | b | n | t | ys | kvs
  case list => exact absurd hv (h ys)
  all_goals rfl

theorem isCleanMsg_cleanMessage (m : Msg) : IsCleanMsg (cleanMessage m) := by
  refine ⟨cleanMessage_not_hasCC m, ?_⟩
  intro xs hxs
  rcases hv : dictGetD m "content" (.list []) with _ | b | n | t | ys | kvs
  case list =>
    rw [cleanMessage_of_content_list m ys hv] at hxs ⊢
    rw [dictGetD_set_self] at hxs
    cases hxs
    constructor
    · rw [List.map_map]
      exact List.map_congr_left (fun b _ => cleanBlock_idem b)
    · rw [dictGet_set_self]
  all_goals (
    rw [cleanMessage_of_content_nonlist m
      (by intro ys hys; rw [hv] at hys; cases hys)] at hxs
    rw [dictGetD_eq, dictGet_erase_ne m _ _ (by decide), ← dictGetD_eq, hv] at hxs
    cases hxs)

theorem cleanMessage_of_clean (c : Msg) (hc : IsCleanMsg c) : cleanMessage c = c := by
  obtain ⟨hno, hfix⟩ := hc
  rcases hv : dictGetD c "content" (.list []) with _ | b | n | t | xs | kvs
  case list =>
    obtain ⟨hmap, hget⟩ := hfix xs hv
    rw [cleanMessage_of_content_list c xs hv, dictErase_of_not_has c _ hno, hmap]
    exact dictSet_same c _ _ hget
  all_goals (
    rw [cleanMessage_of_content_nonlist c (by intro ys hys; rw [hv] at hys; cases hys)]
    exact dictErase_of_not_has c _ hno)

theorem cleanMessage_idem (m : Msg) : cleanMessage (cleanMessage m) = cleanMessage m :=
  cleanMessage_of_clean _ (isCleanMsg_cleanMessage m)

theorem map_id_of_all {α : Type} (f : α → α) (l : List α) (h : ∀ x ∈ l, f x = x) :
    l.map f = l := by
  induction l with
  | nil => rfl
  | cons a rest ih =>
    rw [List.map_cons, h a (List.mem_cons_self a rest),
      ih (fun x hx => h x (List.mem_cons_of_mem a hx))]

theorem attachCC_of_content_list_ne_nil (cc : PyVal) (m : Msg) (xs : List PyVal)
    (h : dictGetD m "content" (.list []) = .list xs) (hne : xs ≠ []) :
    attachCC cc m = dictSet m "content" (.list (attachToBlocks cc xs)) := by
  cases xs with
  | nil => exact absurd rfl hne
  | cons hd tl => exact attachCC_of_content_cons cc m hd tl h

/-- Content update is absorbed: setting `content` twice keeps only the last
value, and the directive-bearing message produced by the attach step strips
back to the clean message it came from. -/
theorem attach_clean_attach (cc : PyVal) (n : Msg) (hn : IsCleanMsg n) :
    attachCC cc (cleanMessage (attachCC cc n)) = attachCC cc n := by
  obtain ⟨hno, hfix⟩ := hn
  rcases hv : dictGetD n "content" (.list []) with _ | b | nn | t | xs | kvs
  case list =>
    obtain ⟨hmap, hget⟩ := hfix xs hv
    have hpoint : ∀ x ∈ xs, cleanBlock x = x := map_eq_self_of_eq _ _ hmap
    cases xs with
    | nil =>
      rw [attachCC_of_content_empty cc n hv,
        cleanMessage_of_clean n ⟨hno, hfix⟩, attachCC_of_content_empty cc n hv]
    | cons hd tl =>
      rcases List.eq_nil_or_concat (hd :: tl) with habs | ⟨ys, blast, hcat⟩
      · cases habs
      rw [List.concat_eq_append] at hcat
      rw [hcat] at hget hpoint
      have hys : ys.map cleanBlock = ys :=
        map_id_of_all _ _ (fun x hx => hpoint x (List.mem_append_left _ hx))
      have hr_has : ∀ v : PyVal, dictHas (dictSet n "content" v) "cache_control" = false :=
        fun v => by rw [dictHas_set_ne _ _ _ _ (by decide), hno]
      by_cases hdict : ∃ dkvs, blast = PyVal.dict dkvs
      · obtain ⟨dkvs, rfl⟩ := hdict
        have hkno : dictHas dkvs "cache_control" = false := by
          apply dictHas_of_erase_eq
          have := hpoint (.dict dkvs) (List.mem_append_right _ (List.mem_singleton_self _))
          exact PyVal.dict.injEq _ _ ▸ (by
            simpa [cleanBlock] using this)
        have step1 : attachCC cc n =
            dictSet n "content"
              (.list (ys ++ [.dict (dictSet dkvs "cache_control" cc)])) := by
          rw [attachCC_of_content_cons cc n hd tl hv, hcat, attachToBlocks_concat_dict]
        have step2 : cleanMessage (dictSet n "content"
              (.list (ys ++ [.dict (dictSet dkvs "cache_control" cc)]))) = n := by
          rw [cleanMessage_of_content_list _ _ (dictGetD_set_self _ _ _ _),
            dictErase_of_not_has _ _ (hr_has _), dictSet_set, List.map_append, hys]
          have : cleanBlock (.dict (dictSet dkvs "cache_control" cc)) = .dict dkvs := by
            show PyVal.dict (dictErase (dictSet dkvs "cache_control" cc) "cache_control")
              = PyVal.dict dkvs
            rw [dictErase_set_of_not_has _ _ _ hkno]
          rw [List.map_cons, List.map_nil, this]
          exact dictSet_same n _ _ hget
        rw [step1, step2, step1]
      · have hnd : ∀ dkvs, blast ≠ PyVal.dict dkvs := fun dkvs hk => hdict ⟨dkvs, hk⟩
        have step1 : attachCC cc n =
            dictSet n "content" (.list ((ys ++ [blast]) ++
              [newTextBlock (if pyTruthy blast then pyStr blast else "") cc])) := by
          rw [attachCC_of_content_cons cc n hd tl hv, hcat,
            attachToBlocks_concat_nondict cc blast ys hnd]
        have hblast : cleanBlock blast = blast :=
          hpoint blast (List.mem_append_right _ (List.mem_singleton_self _))
        have step2 : cleanMessage (dictSet n "content" (.list ((ys ++ [blast]) ++
              [newTextBlock (if pyTruthy blast then pyStr blast else "") cc]))) =
            dictSet n "content" (.list ((ys ++ [blast]) ++
              [.dict [("type", .str "text"),
                ("text", .str (if pyTruthy blast then pyStr blast else ""))]])) := by
          rw [cleanMessage_of_content_list _ _ (dictGetD_set_self _ _ _ _),
            dictErase_of_not_has _ _ (hr_has _), dictSet_set, List.map_append,
            List.map_append, hys, List.map_cons, List.map_nil, List.map_cons,
            List.map_nil, hblast, cleanBlock_newTextBlock]
        have step3 : attachCC cc (dictSet n "content" (.list ((ys ++ [blast]) ++
              [.dict [("type", .str "text"),
                ("text", .str (if pyTruthy blast then pyStr blast else ""))]]))) =
            dictSet n "content" (.list ((ys ++ [blast]) ++
              [newTextBlock (if pyTruthy blast then pyStr blast else "") cc])) := by
          rw [attachCC_of_content_list_ne_nil cc _ _ (dictGetD_set_self _ _ _ _)
              (by simp), attachToBlocks_concat_dict, dictSet_set, dictSet_typeText]
          rfl
        rw [step1, step2, step3]
  case str =>
    have step1 : attachCC cc n = dictSet n "content" (.list [newTextBlock t cc]) :=
      attachCC_of_content_str cc n t hv
    have hr_has : ∀ v : PyVal, dictHas (dictSet n "content" v) "cache_control" = false :=
      fun v => by rw [dictHas_set_ne _ _ _ _ (by decide), hno]
    have step2 : cleanMessage (dictSet n "content" (.list [newTextBlock t cc])) =
        dictSet n "content" (.list [.dict [("type", .str "text"), ("text", .str t)]]) := by
      rw [cleanMessage_of_content_list _ _ (dictGetD_set_self _ _ _ _),
        dictErase_of_not_has _ _ (hr_has _), dictSet_set, List.map_cons, List.map_nil,
        cleanBlock_newTextBlock]
    have step3 : attachCC cc (dictSet n "content"
          (.list [.dict [("type", .str "text"), ("text", .str t)]])) =
        dictSet n "content" (.list [newTextBlock t cc]) := by
      rw [attachCC_of_content_list_ne_nil cc _ _ (dictGetD_set_self _ _ _ _) (by simp),
        show ([PyVal.dict [("type", .str "text"), ("text", .str t)]] : List PyVal)
          = [] ++ [PyVal.dict [("type", .str "text"), ("text", .str t)]] from rfl,
        attachToBlocks_concat_dict, dictSet_set, dictSet_typeText]
      rfl
    rw [step1, step2, step3]
  all_goals (
    have step1 : attachCC cc n = dictSet n "content" (.list [newTextBlock "" cc]) :=
      attachCC_of_content_other cc n
        (by intro ys hys; rw [hv] at hys; cases hys)
        (by intro u hu; rw [hv] at hu; cases hu)
    have hr_has : ∀ v : PyVal, dictHas (dictSet n "content" v) "cache_control" = false :=
      fun v => by rw [dictHas_set_ne _ _ _ _ (by decide), hno]
    have step2 : cleanMessage (dictSet n "content" (.list [newTextBlock "" cc])) =
        dictSet n "content" (.list [.dict [("type", .str "text"), ("text", .str "")]]) := by
      rw [cleanMessage_of_content_list _ _ (dictGetD_set_self _ _ _ _),
        dictErase_of_not_has _ _ (hr_has _), dictSet_set, List.map_cons, List.map_nil,
        cleanBlock_newTextBlock]
    have step3 : attachCC cc (dictSet n "content"
          (.list [.dict [("type", .str "text"), ("text", .str "")]])) =
        dictSet n "content" (.list [newTextBlock "" cc]) := by
      rw [attachCC_of_content_list_ne_nil cc _ _ (dictGetD_set_self _ _ _ _) (by simp),
        show ([PyVal.dict [("type", .str "text"), ("text", .str "")]] : List PyVal)
          = [] ++ [PyVal.dict [("type", .str "text"), ("text", .str "")]] from rfl,
        attachToBlocks_concat_dict, dictSet_set, dictSet_typeText]
      rfl
    rw [step1, step2, step3])

theorem normalizeMessages_idem (cc : PyVal) (msgs : List Msg) :
    normalizeMessages cc (normalizeMessages cc msgs) = normalizeMessages cc msgs := by
  rcases List.eq_nil_or_concat msgs with rfl | ⟨l, m, hcat⟩
  · rfl
  · rw [List.concat_eq_append] at hcat
    subst hcat
    rw [normalizeMessages_concat, normalizeMessages_concat]
    rw [attach_clean_attach cc (cleanMessage m) (isCleanMsg_cleanMessage m)]
    rw [List.map_map,
      List.map_congr_left (f := cleanMessage ∘ cleanMessage) (g := cleanMessage)
        (fun a _ => cleanMessage_idem a)]

/-- C8: normalization is idempotent — running either variant's normalizer a
second time returns the first run's output unchanged. -/
theorem c8_normalize_idempotent (ttl : String) (msgs : List Msg) :
    standardizeCacheControl ttl (standardizeCacheControl ttl msgs)
        = standardizeCacheControl ttl msgs ∧
    addCacheControlToMessages (addCacheControlToMessages msgs)
        = addCacheControlToMessages msgs :=
  ⟨normalizeMessages_idem (ccWithTtl ttl) msgs, normalizeMessages_idem ccBare msgs⟩

/- ### Heap model of the normalizer (for the frame property, C9)

The value model above reads the normalizer at the level of dictionary values;
Python, however, passes the message list by reference and the spec claims the
input structure is never mutated. To settle that, the normalizer is embedded a
second time over an explicit store: dicts and lists are heap objects addressed
by index, `message.copy()` / comprehension rebuilds become allocations, and the
in-place updates of the attach step (`content[-1]['cache_control'] = ...`,
`content.append(...)`, `last_message['content'] = ...`) become writes. The
frame theorem shows every write lands on an address allocated by the call
itself, so all pre-existing objects — in particular the whole input — are
untouched. -/

/-- An immediate Python value: a primitive, or a reference to a heap object. -/
inductive HVal : Type where
  | none
  | bool (b : Bool)
  | int (n : Int)
  | str (s : String)
  | ref (a : Nat)
  deriving Repr, DecidableEq

/-- A heap object: a dict or a list. -/
inductive HObj : Type where
  | dict (kvs : List (String × HVal))
  | list (xs : List HVal)
  deriving Repr, DecidableEq

/-- The store: address `a` is index `a`; allocation appends. -/
abbrev Store := List HObj

def alloc (s : Store) (o : HObj) : Store × Nat :=
  (s ++ [o], s.length)

def readObj (s : Store) (a : Nat) : Option HObj :=
  s.get? a

def writeObj (s : Store) (a : Nat) (o : HObj) : Store :=
  s.set a o

/-- Association-list dict operations for heap dict entries (same Python
semantics as the value-level `dictGet`/`dictSet`/`dictErase`). -/
def hGet (d : List (String × HVal)) (k : String) : Option HVal :=
  (d.find? (fun p => p.1 == k)).map (·.2)

def hSet : List (String × HVal) → String → HVal → List (String × HVal)
  | [], k, v => [(k, v)]
  | p :: rest, k, v => if p.1 == k then (k, v) :: rest else p :: hSet rest k v

def hErase (d : List (String × HVal)) (k : String) : List (String × HVal) :=
  d.filter (fun p => p.1 != k)

/-- `str(content[-1])` for the synthesized block's text, heap version.
Rendering stops at references; the attached text never influences which
addresses are read or written, which is all the frame claim concerns. -/
def hStr (s : Store) (v : HVal) : String :=
  match v with
  | .none => "None"
  | .bool true => "True"
  | .bool false => "False"
  | .int n => toString n
  | .str t => t
  | .ref a =>
    match readObj s a with
    | Option.some (.dict _) => "\x7b...\x7d"
    | Option.some (.list _) => "[...]"
    | Option.none => ""

/-- `bool(content[-1])`, heap version. -/
def hTruthy (s : Store) (v : HVal) : Bool :=
  match v with
  | .none => false
  | .bool b => b
  | .int n => n != 0
  | .str t => !t.isEmpty
  | .ref a =>
    match readObj s a with
    | Option.some (.dict kvs) => !kvs.isEmpty
    | Option.some (.list xs) => !xs.isEmpty
    | Option.none => false

/-- Cleaning one content block: a dict block is rebuilt (fresh allocation)
without its `cache_control` entry; any other block value is kept as-is. -/
def cleanBlockH (s : Store) (b : HVal) : Store × HVal :=
  match b with
  | .ref a =>
    match readObj s a with
    | Option.some (.dict kvs) =>
      let (s1, a1) := alloc s (.dict (hErase kvs "cache_control"))
      (s1, .ref a1)
    | _ => (s, b)
  | _ => (s, b)

def cleanBlocksH (s : Store) (bs : List HVal) : Store × List HVal :=
  match bs with
  | [] => (s, [])
  | b :: rest =>
    let (s1, b1) := cleanBlockH s b
    let (s2, rest1) := cleanBlocksH s1 rest
    (s2, b1 :: rest1)

/-- Cleaning one message: `message.copy()`, `del` of a message-level
`cache_control` and the rebuild of a list content are compressed into
allocating the final cleaned dict (the copy is never observed in an
intermediate state). A non-dict message — on which the source would raise —
is returned unchanged. -/
def cleanMessageH (s : Store) (m : HVal) : Store × HVal :=
  match m with
  | .ref a =>
    match readObj s a with
    | Option.some (.dict kvs) =>
      let kvs1 := hErase kvs "cache_control"
      match hGet kvs "content" with
      | Option.some (.ref c) =>
        match readObj s c with
        | Option.some (.list xs) =>
          let (s1, bs) := cleanBlocksH s xs
          let (s2, c1) := alloc s1 (.list bs)
          let (s3, a1) := alloc s2 (.dict (hSet kvs1 "content" (.ref c1)))
          (s3, .ref a1)
        | _ =>
          let (s1, a1) := alloc s (.dict kvs1)
          (s1, .ref a1)
      | Option.some _ =>
        let (s1, a1) := alloc s (.dict kvs1)
        (s1, .ref a1)
      | Option.none =>
        -- `message.get('content', [])` yields the (fresh, empty) default
        -- list, so the `isinstance(content, list)` branch runs and stores it.
        let (s1, c1) := alloc s (.list [])
        let (s2, a1) := alloc s1 (.dict (hSet kvs1 "content" (.ref c1)))
        (s2, .ref a1)
    | _ => (s, m)
  | _ => (s, m)

def cleanMessagesH (s : Store) (msgs : List HVal) : Store × List HVal :=
  match msgs with
  | [] => (s, [])
  | m :: rest =>
    let (s1, m1) := cleanMessageH s m
    let (s2, rest1) := cleanMessagesH s1 rest
    (s2, m1 :: rest1)

/-- Allocate the synthesized text block
`{"type": "text", "text": t, "cache_control": cckvs}` (the directive dict is
itself a fresh object, as the Python dict display allocates one). -/
def allocTextBlock (cckvs : List (String × HVal)) (s : Store) (t : String) :
    Store × Nat :=
  let (s1, ccA) := alloc s (.dict cckvs)
  alloc s1 (.dict [("type", .str "text"), ("text", .str t),
    ("cache_control", .ref ccA)])

/-- The attach step of the normalizer on the (cleaned) last message, returning
the updated store. Each branch mirrors the source: set the directive on a dict
last block, append a synthesized block after a non-dict last block, do nothing
on an empty block list (the source only rebinds its local), and replace a
string or other non-list content by a one-block list. -/
def attachCCH (cckvs : List (String × HVal)) (s : Store) (lastRef : HVal) : Store :=
  match lastRef with
  | .ref a =>
    match readObj s a with
    | Option.some (.dict kvs) =>
      match hGet kvs "content" with
      | Option.some (.ref c) =>
        match readObj s c with
        | Option.some (.list xs) =>
          match xs.getLast? with
          | Option.some (.ref d) =>
            match readObj s d with
            | Option.some (.dict dkvs) =>
              let (s1, ccA) := alloc s (.dict cckvs)
              writeObj s1 d (.dict (hSet dkvs "cache_control" (.ref ccA)))
            | _ =>
              let (s1, bA) := allocTextBlock cckvs s
                (if hTruthy s (.ref d) then hStr s (.ref d) else "")
              writeObj s1 c (.list (xs ++ [.ref bA]))
          | Option.some b =>
            let (s1, bA) := allocTextBlock cckvs s
              (if hTruthy s b then hStr s b else "")
            writeObj s1 c (.list (xs ++ [.ref bA]))
          | Option.none => s
        | _ =>
          -- content references a dict object: the final `else` branch
          let (s1, bA) := allocTextBlock cckvs s ""
          let (s2, cA) := alloc s1 (.list [.ref bA])
          writeObj s2 a (.dict (hSet kvs "content" (.ref cA)))
      | Option.some (.str t) =>
        let (s1, bA) := allocTextBlock cckvs s t
        let (s2, cA) := alloc s1 (.list [.ref bA])
        writeObj s2 a (.dict (hSet kvs "content" (.ref cA)))
      | Option.some _ =>
        let (s1, bA) := allocTextBlock cckvs s ""
        let (s2, cA) := alloc s1 (.list [.ref bA])
        writeObj s2 a (.dict (hSet kvs "content" (.ref cA)))
      | Option.none => s
    | _ => s
  | _ => s

/-- Heap version of the shared normalizer body. -/
def normalizeMessagesH (cckvs : List (String × HVal)) (s : Store)
    (msgs : List HVal) : Store × List HVal :=
  if msgs.isEmpty then (s, msgs)
  else
    let (s1, cleaned) := cleanMessagesH s msgs
    match cleaned.getLast? with
    | Option.some lastRef => (attachCCH cckvs s1 lastRef, cleaned)
    | Option.none => (s1, cleaned)

/-- `_standardize_cache_control`, heap version (TTL-aware directive). -/
def standardizeCacheControlH (ttl : String) (s : Store) (msgs : List HVal) :
    Store × List HVal :=
  normalizeMessagesH [("type", .str "ephemeral"), ("ttl", .str ttl)] s msgs

/-- `_add_cache_control_to_messages`, heap version (bare directive). -/
def addCacheControlToMessagesH (s : Store) (msgs : List HVal) :
    Store × List HVal :=
  normalizeMessagesH [("type", .str "ephemeral")] s msgs

/-- `s1` extends `s0`: the store only grew, and every pre-existing address
still holds exactly its old object. This is the frame property: a run
satisfying it cannot have mutated any object that existed before it. -/
def StorePreserved (s0 s1 : Store) : Prop :=
  s0.length ≤ s1.length ∧ ∀ a, a < s0.length → s1.get? a = s0.get? a

theorem storePreserved_refl (s : Store) : StorePreserved s s :=
  ⟨le_refl _, fun _ _ => rfl⟩

theorem storePreserved_trans {s0 s1 s2 : Store}
    (h1 : StorePreserved s0 s1) (h2 : StorePreserved s1 s2) : StorePreserved s0 s2 :=
  ⟨le_trans h1.1 h2.1, fun a ha => (h2.2 a (lt_of_lt_of_le ha h1.1)).trans (h1.2 a ha)⟩

theorem storePreserved_alloc (s : Store) (o : HObj) : StorePreserved s (s ++ [o]) :=
  ⟨by simp, fun a ha => List.get?_append ha⟩

theorem storePreserved_write_high {s0 : Store} (s : Store) (a : Nat) (o : HObj)
    (hs : StorePreserved s0 s) (ha : s0.length ≤ a) :
    StorePreserved s0 (writeObj s a o) := by
  refine ⟨by simpa [writeObj] using hs.1, ?_⟩
  intro i hi
  unfold writeObj
  rw [List.get?_set_ne o s (by omega), hs.2 i hi]

theorem mem_of_getLast?_eq {α : Type} {l : List α} {a : α}
    (h : l.getLast? = Option.some a) : a ∈ l := by
  rcases List.eq_nil_or_concat l with rfl | ⟨ys, b, rfl⟩
  · cases h
  · rw [List.concat_eq_append, List.getLast?_concat] at h
    cases h
    rw [List.concat_eq_append]
    exact List.mem_append_right _ (List.mem_singleton_self _)

theorem hGet_cons_of_eq (p : String × HVal) (rest : List (String × HVal)) (k : String)
    (h : p.1 = k) : hGet (p :: rest) k = Option.some p.2 := by
  unfold hGet
  rw [List.find?_cons_of_pos _ (by simp [h])]
  rfl

theorem hGet_cons_of_ne (p : String × HVal) (rest : List (String × HVal)) (k : String)
    (h : p.1 ≠ k) : hGet (p :: rest) k = hGet rest k := by
  unfold hGet
  rw [List.find?_cons_of_neg _ (by simp [h])]

theorem hGet_set_self (d : List (String × HVal)) (k : String) (v : HVal) :
    hGet (hSet d k v) k = Option.some v := by
  induction d with
  | nil => simp [hSet, hGet, List.find?_cons]
  | cons p rest ih =>
    by_cases hp : p.1 = k
    · rw [show hSet (p :: rest) k v = (k, v) :: rest by simp [hSet, hp],
        hGet_cons_of_eq _ _ _ rfl]
    · rw [show hSet (p :: rest) k v = p :: hSet rest k v by simp [hSet, hp],
        hGet_cons_of_ne _ _ _ hp, ih]

theorem hGet_erase_ne (d : List (String × HVal)) (k k' : String) (h : k' ≠ k) :
    hGet (hErase d k) k' = hGet d k' := by
  induction d with
  | nil => rfl
  | cons p rest ih =>
    by_cases hp : p.1 = k
    · have hpk : p.1 ≠ k' := by rw [hp]; exact Ne.symm h
      rw [show hErase (p :: rest) k = hErase rest k by
          unfold hErase; rw [List.filter_cons_of_neg (by simp [hp])],
        ih, hGet_cons_of_ne _ _ _ hpk]
    · rw [show hErase (p :: rest) k = p :: hErase rest k by
          unfold hErase; rw [List.filter_cons_of_pos (by simp [hp])]]
      by_cases hq : p.1 = k'
      · rw [hGet_cons_of_eq _ _ _ hq, hGet_cons_of_eq _ _ _ hq]
      · rw [hGet_cons_of_ne _ _ _ hq, hGet_cons_of_ne _ _ _ hq, ih]

/-- A block value whose target, when it is a dict object, was allocated at or
after `n0`. -/
def BlockDictFresh (n0 : Nat) (s : Store) (v : HVal) : Prop :=
  ∀ d, v = .ref d → ∀ dk, readObj s d = Option.some (.dict dk) → n0 ≤ d

theorem blockDictFresh_mono {n0 : Nat} {s1 s2 : Store} (h : StorePreserved s1 s2)
    (hn : n0 ≤ s1.length) {v : HVal} (hv : BlockDictFresh n0 s1 v) :
    BlockDictFresh n0 s2 v := by
  intro d hd dk hread
  by_cases hlt : d < s1.length
  · apply hv d hd dk
    unfold readObj at hread ⊢
    rw [← h.2 d hlt]
    exact hread
  · omega

theorem cleanBlockH_spec (s : Store) (b : HVal) :
    StorePreserved s (cleanBlockH s b).1 ∧
    BlockDictFresh s.length (cleanBlockH s b).1 (cleanBlockH s b).2 := by
  cases b
  case ref a =>
    rcases hr : readObj s a with _ | o
    · simp only [cleanBlockH, hr]
      refine ⟨storePreserved_refl s, ?_⟩
      intro d hd dk hread
      cases hd
      rw [hr] at hread
      cases hread
    · cases o with
      | dict kvs =>
        simp only [cleanBlockH, hr, alloc]
        refine ⟨storePreserved_alloc s _, ?_⟩
        intro d hd dk _
        cases hd
        exact le_refl _
      | list xs =>
        simp only [cleanBlockH, hr]
        refine ⟨storePreserved_refl s, ?_⟩
        intro d hd dk hread
        cases hd
        rw [hr] at hread
        cases hread
  all_goals (
    refine ⟨storePreserved_refl s, ?_⟩
    intro d hd dk hread
    cases hd)

theorem cleanBlocksH_spec (s : Store) (bs : List HVal) :
    StorePreserved s (cleanBlocksH s bs).1 ∧
    ∀ v ∈ (cleanBlocksH s bs).2, BlockDictFresh s.length (cleanBlocksH s bs).1 v := by
  induction bs generalizing s with
  | nil =>
    refine ⟨storePreserved_refl s, ?_⟩
    intro v hv
    cases hv
  | cons b rest ih =>
    obtain ⟨hp1, hf1⟩ := cleanBlockH_spec s b
    rcases h1 : cleanBlockH s b with ⟨s1, b1⟩
    rw [h1] at hp1 hf1
    obtain ⟨hp2, hf2⟩ := ih s1
    rcases h2 : cleanBlocksH s1 rest with ⟨s2, rest1⟩
    rw [h2] at hp2 hf2
    simp only [cleanBlocksH, h1, h2]
    refine ⟨storePreserved_trans hp1 hp2, ?_⟩
    intro v hv
    rcases List.mem_cons.mp hv with rfl | hv2
    · exact blockDictFresh_mono hp2 hp1.1 hf1
    · intro d hd dk hread
      exact le_trans hp1.1 (hf2 v hv2 d hd dk hread)

theorem readObj_append_lt (s t : Store) (a : Nat) (h : a < s.length) :
    readObj (s ++ t) a = readObj s a := List.get?_append h

theorem readObj_concat_self (s : Store) (o : HObj) :
    readObj (s ++ [o]) s.length = Option.some o := List.get?_concat_length s o

/-- The addresses the attach step will touch on the cleaned last message —
the message dict itself, its list content, and any dict block inside — are all
at or above `n0`. -/
def MsgFresh (n0 : Nat) (s : Store) (r : HVal) : Prop :=
  ∀ a, r = .ref a → ∀ kvs, readObj s a = Option.some (.dict kvs) →
    n0 ≤ a ∧
    ∀ c, hGet kvs "content" = Option.some (.ref c) →
      ∀ xs, readObj s c = Option.some (.list xs) →
        n0 ≤ c ∧ ∀ v ∈ xs, BlockDictFresh n0 s v

theorem msgFresh_mono {n0 n1 : Nat} (h : n0 ≤ n1) {s : Store} {r : HVal}
    (hm : MsgFresh n1 s r) : MsgFresh n0 s r := by
  intro a ha kvs hk
  obtain ⟨h1, h2⟩ := hm a ha kvs hk
  refine ⟨le_trans h h1, ?_⟩
  intro c hc xs hxs
  obtain ⟨h3, h4⟩ := h2 c hc xs hxs
  refine ⟨le_trans h h3, ?_⟩
  intro v hv d hd dk hdk
  exact le_trans h (h4 v hv d hd dk hdk)

theorem cleanMessageH_spec (s : Store) (m : HVal) :
    StorePreserved s (cleanMessageH s m).1 ∧
    MsgFresh s.length (cleanMessageH s m).1 (cleanMessageH s m).2 := by
  cases m
  case ref a =>
    rcases hr : readObj s a with _ | o
    · simp only [cleanMessageH, hr]
      refine ⟨storePreserved_refl s, ?_⟩
      intro a1 ha1 kvs hk
      cases ha1
      rw [hr] at hk
      cases hk
    · cases o
      case list xs =>
        simp only [cleanMessageH, hr]
        refine ⟨storePreserved_refl s, ?_⟩
        intro a1 ha1 kvs hk
        cases ha1
        rw [hr] at hk
        cases hk
      case dict kvs =>
        rcases hg : hGet kvs "content" with _ | cv
        · -- missing content: the fresh default [] is stored
          simp only [cleanMessageH, hr, hg, alloc]
          constructor
          · exact storePreserved_trans (storePreserved_alloc s _) (storePreserved_alloc _ _)
          · intro a1 ha1 kvs1 hk
            cases ha1
            rw [readObj_concat_self] at hk
            cases hk
            constructor
            · simp
            · intro c hc ys hys
              rw [hGet_set_self] at hc
              cases hc
              rw [readObj_append_lt _ _ _ (by simp), readObj_concat_self] at hys
              cases hys
              refine ⟨le_refl _, ?_⟩
              intro v hv
              cases hv
        · cases cv
          case ref c =>
            rcases hrc : readObj s c with _ | o2
            · -- dangling content reference: non-list branch
              simp only [cleanMessageH, hr, hg, hrc, alloc]
              refine ⟨storePreserved_alloc s _, ?_⟩
              intro a1 ha1 kvs1 hk
              cases ha1
              rw [readObj_concat_self] at hk
              cases hk
              refine ⟨le_refl _, ?_⟩
              intro c1 hc ys hys
              rw [hGet_erase_ne kvs _ _ (by decide), hg] at hc
              cases hc
              rcases Nat.lt_trichotomy c s.length with hlt | heq | hgt
              · rw [readObj_append_lt _ _ _ hlt, hrc] at hys
                cases hys
              · subst heq
                rw [readObj_concat_self] at hys
                cases hys
              · have hnone : readObj (s ++ [HObj.dict (hErase kvs "cache_control")]) c
                    = Option.none := by
                  unfold readObj
                  rw [List.get?_eq_none]
                  simp only [List.length_append, List.length_cons, List.length_nil]
                  omega
                rw [hnone] at hys
                cases hys
            · cases o2
              case dict ckvs =>
                -- content references a dict object: non-list branch
                simp only [cleanMessageH, hr, hg, hrc, alloc]
                refine ⟨storePreserved_alloc s _, ?_⟩
                intro a1 ha1 kvs1 hk
                cases ha1
                rw [readObj_concat_self] at hk
                cases hk
                refine ⟨le_refl _, ?_⟩
                intro c1 hc ys hys
                rw [hGet_erase_ne kvs _ _ (by decide), hg] at hc
                cases hc
                rcases Nat.lt_trichotomy c s.length with hlt | heq | hgt
                · rw [readObj_append_lt _ _ _ hlt, hrc] at hys
                  cases hys
                · subst heq
                  rw [readObj_concat_self] at hys
                  cases hys
                · have hnone : readObj (s ++ [HObj.dict (hErase kvs "cache_control")]) c
                      = Option.none := by
                    unfold readObj
                    rw [List.get?_eq_none]
                    simp only [List.length_append, List.length_cons, List.length_nil]
                    omega
                  rw [hnone] at hys
                  cases hys
              case list xs =>
                -- the list-content branch: clean the blocks and store them
                obtain ⟨hbp, hbf⟩ := cleanBlocksH_spec s xs
                rcases hb : cleanBlocksH s xs with ⟨s1, bs⟩
                rw [hb] at hbp hbf
                simp only [cleanMessageH, hr, hg, hrc, hb, alloc]
                constructor
                · exact storePreserved_trans hbp
                    (storePreserved_trans (storePreserved_alloc s1 _)
                      (storePreserved_alloc _ _))
                · intro a1 ha1 kvs1 hk
                  cases ha1
                  rw [readObj_concat_self] at hk
                  cases hk
                  constructor
                  · have h1 : s.length ≤ s1.length := hbp.1
                    simp only [List.length_append, List.length_cons, List.length_nil]
                    omega
                  · intro c1 hc ys hys
                    rw [hGet_set_self] at hc
                    cases hc
                    rw [readObj_append_lt _ _ _ (by simp), readObj_concat_self] at hys
                    cases hys
                    refine ⟨hbp.1, ?_⟩
                    intro v hv
                    exact blockDictFresh_mono
                      (storePreserved_trans (storePreserved_alloc s1 _)
                        (storePreserved_alloc _ _))
                      hbp.1 (hbf v hv)
          all_goals (
            simp only [cleanMessageH, hr, hg, alloc]
            refine ⟨storePreserved_alloc s _, ?_⟩
            intro a1 ha1 kvs1 hk
            cases ha1
            rw [readObj_concat_self] at hk
            cases hk
            refine ⟨le_refl _, ?_⟩
            intro c1 hc ys hys
            rw [hGet_erase_ne kvs _ _ (by decide), hg] at hc
            cases hc)
  all_goals (
    refine ⟨storePreserved_refl s, ?_⟩
    intro a1 ha1 kvs hk
    cases ha1)

theorem cleanMessagesH_preserves (s : Store) (msgs : List HVal) :
    StorePreserved s (cleanMessagesH s msgs).1 := by
  induction msgs generalizing s with
  | nil => exact storePreserved_refl s
  | cons m rest ih =>
    rcases h1 : cleanMessageH s m with ⟨s1, m1⟩
    have hp1 : StorePreserved s s1 := by
      have h := (cleanMessageH_spec s m).1
      rw [h1] at h
      exact h
    rcases h2 : cleanMessagesH s1 rest with ⟨s2, rest1⟩
    have hp2 : StorePreserved s1 s2 := by
      have h := ih s1
      rw [h2] at h
      exact h
    simp only [cleanMessagesH, h1, h2]
    exact storePreserved_trans hp1 hp2

theorem cleanMessagesH_append (s : Store) (l : List HVal) (m : HVal) :
    cleanMessagesH s (l ++ [m]) =
      ((cleanMessageH (cleanMessagesH s l).1 m).1,
       (cleanMessagesH s l).2 ++ [(cleanMessageH (cleanMessagesH s l).1 m).2]) := by
  induction l generalizing s with
  | nil => simp [cleanMessagesH]
  | cons x rest ih =>
    simp only [List.cons_append, cleanMessagesH, List.append_eq]
    rw [ih (cleanMessageH s x).1]

theorem allocTextBlock_preserves (cckvs : List (String × HVal)) (s : Store)
    (t : String) : StorePreserved s (allocTextBlock cckvs s t).1 :=
  storePreserved_trans (storePreserved_alloc s _) (storePreserved_alloc _ _)

theorem attachCCH_preserves (cckvs : List (String × HVal)) {s0 : Store} (s : Store)
    (r : HVal) (hs : StorePreserved s0 s) (hr : MsgFresh s0.length s r) :
    StorePreserved s0 (attachCCH cckvs s r) := by
  cases r
  case ref a =>
    rcases hra : readObj s a with _ | o
    · simp only [attachCCH, hra]
      exact hs
    · cases o
      case list ls =>
        simp only [attachCCH, hra]
        exact hs
      case dict kvs =>
        obtain ⟨hab, hcont⟩ := hr a rfl kvs hra
        rcases hgc : hGet kvs "content" with _ | cv
        · simp only [attachCCH, hra, hgc]
          exact hs
        · cases cv
          case ref c =>
            rcases hrc : readObj s c with _ | o2
            · -- dangling content reference: final else branch, rewrites `a`
              simp only [attachCCH, hra, hgc, hrc]
              exact storePreserved_write_high _ _ _
                (storePreserved_trans hs
                  (storePreserved_trans (allocTextBlock_preserves cckvs s "")
                    (storePreserved_alloc _ _))) hab
            · cases o2
              case dict ckvs =>
                simp only [attachCCH, hra, hgc, hrc]
                exact storePreserved_write_high _ _ _
                  (storePreserved_trans hs
                    (storePreserved_trans (allocTextBlock_preserves cckvs s "")
                      (storePreserved_alloc _ _))) hab
              case list xs =>
                obtain ⟨hcb, hblocks⟩ := hcont c hgc xs hrc
                rcases hlast : xs.getLast? with _ | b
                · simp only [attachCCH, hra, hgc, hrc, hlast]
                  exact hs
                · cases b
                  case ref d =>
                    rcases hrd : readObj s d with _ | o3
                    · simp only [attachCCH, hra, hgc, hrc, hlast, hrd]
                      exact storePreserved_write_high _ _ _
                        (storePreserved_trans hs (allocTextBlock_preserves cckvs s _)) hcb
                    · cases o3
                      case dict dkvs =>
                        simp only [attachCCH, hra, hgc, hrc, hlast, hrd, alloc]
                        have hdb : s0.length ≤ d :=
                          hblocks _ (mem_of_getLast?_eq hlast) d rfl dkvs hrd
                        exact storePreserved_write_high _ _ _
                          (storePreserved_trans hs (storePreserved_alloc s _)) hdb
                      case list lxs =>
                        simp only [attachCCH, hra, hgc, hrc, hlast, hrd]
                        exact storePreserved_write_high _ _ _
                          (storePreserved_trans hs (allocTextBlock_preserves cckvs s _))
                          hcb
                  all_goals (
                    simp only [attachCCH, hra, hgc, hrc, hlast]
                    exact storePreserved_write_high _ _ _
                      (storePreserved_trans hs (allocTextBlock_preserves cckvs s _)) hcb)
          all_goals (
            simp only [attachCCH, hra, hgc]
            exact storePreserved_write_high _ _ _
              (storePreserved_trans hs
                (storePreserved_trans (allocTextBlock_preserves cckvs s _)
                  (storePreserved_alloc _ _))) hab)
  all_goals exact hs

theorem normalizeMessagesH_frame (cckvs : List (String × HVal)) (s : Store)
    (msgs : List HVal) : StorePreserved s (normalizeMessagesH cckvs s msgs).1 := by
  unfold normalizeMessagesH
  rcases List.eq_nil_or_concat msgs with rfl | ⟨l, m, hcat⟩
  · exact storePreserved_refl s
  · rw [List.concat_eq_append] at hcat
    subst hcat
    rw [if_neg (by simp), cleanMessagesH_append]
    simp only [List.getLast?_concat]
    have hp_mid : StorePreserved s (cleanMessagesH s l).1 := cleanMessagesH_preserves s l
    obtain ⟨hp_fin, hfresh⟩ := cleanMessageH_spec (cleanMessagesH s l).1 m
    exact attachCCH_preserves cckvs _ _
      (storePreserved_trans hp_mid hp_fin) (msgFresh_mono hp_mid.1 hfresh)

/-- C9: the normalizer of either variant never mutates pre-existing heap
objects. Every address that exists before the call holds exactly the same
object afterwards (the store only grows), so the input message list, its
message dicts and all their content blocks are left exactly as they were, and
the returned sequence can share no mutated structure with the input. -/
theorem c9_normalizer_never_mutates_input (ttl : String) (s : Store) (msgs : List HVal) :
    StorePreserved s (standardizeCacheControlH ttl s msgs).1 ∧
    StorePreserved s (addCacheControlToMessagesH s msgs).1 :=
  ⟨normalizeMessagesH_frame _ s msgs, normalizeMessagesH_frame _ s msgs⟩

/-- C9 witness: a one-message input on a concrete two-object heap — the
message dict at address 0 whose content is the block list at address 1 — is
readable unchanged at both addresses after either normalizer runs. -/
theorem c9_normalizer_never_mutates_input_witness :
    ((standardizeCacheControlH "1h"
        [HObj.dict [("role", HVal.str "user"), ("content", HVal.ref 1)],
         HObj.list [HVal.str "hi"]] [HVal.ref 0]).1.get? 0
      = Option.some (HObj.dict [("role", HVal.str "user"), ("content", HVal.ref 1)])) ∧
    ((addCacheControlToMessagesH
        [HObj.dict [("role", HVal.str "user"), ("content", HVal.ref 1)],
         HObj.list [HVal.str "hi"]] [HVal.ref 0]).1.get? 1
      = Option.some (HObj.list [HVal.str "hi"])) := by
  constructor
  · rw [(c9_normalizer_never_mutates_input "1h"
      [HObj.dict [("role", HVal.str "user"), ("content", HVal.ref 1)],
       HObj.list [HVal.str "hi"]] [HVal.ref 0]).1.2 0 (by decide)]
    rfl
  · rw [(c9_normalizer_never_mutates_input "1h"
      [HObj.dict [("role", HVal.str "user"), ("content", HVal.ref 1)],
       HObj.list [HVal.str "hi"]] [HVal.ref 0]).2.2 1 (by decide)]
    rfl

/- ### Header preparation (`_prepare_headers`, both variants) -/

/-- A header map (FastAPI hands the handler a plain dict). -/
abbrev Headers := List (String × String)

def hdrGet (h : Headers) (k : String) : Option String :=
  (h.find? (fun p => p.1 == k)).map (·.2)

def hdrGetD (h : Headers) (k : String) (d : String) : String :=
  (hdrGet h k).getD d

/-- `AnthropicRequestHandler._prepare_headers`: a fresh dict with the
server-held key, the protocol version (defaulted), the content type, and the
optional pass-through of the two allow-listed caller headers. -/
def prepareHeadersAnthropic (apiKey : String) (orig : Headers) : Headers :=
  [("x-api-key", apiKey),
   ("anthropic-version", hdrGetD orig "anthropic-version" "2023-06-01"),
   ("content-type", "application/json")] ++
  (match hdrGet orig "anthropic-beta" with
   | Option.some v => [("anthropic-beta", v)]
   | Option.none => []) ++
  (match hdrGet orig "user-agent" with
   | Option.some v => [("user-agent", v)]
   | Option.none => [])

/-- `OpenAIRequestHandler._prepare_headers`: a fresh dict holding only the
server-held bearer token and fixed headers; nothing of the caller's headers is
consulted. -/
def prepareHeadersOpenrouter (apiKey : String) (_orig : Headers) : Headers :=
  [("Authorization", "Bearer " ++ apiKey),
   ("Content-Type", "application/json"),
   ("HTTP-Referer", "https://api.pezayo.com"),
   ("X-Title", "One hub 站点")]

theorem hdrGet_cons_of_eq (p : String × String) (rest : Headers) (k : String)
    (h : p.1 = k) : hdrGet (p :: rest) k = Option.some p.2 := by
  unfold hdrGet
  rw [List.find?_cons_of_pos _ (by simp [h])]
  rfl

/-- C3: the prepared upstream headers are a function of the caller's
non-credential headers only — two caller header maps that agree outside
`x-api-key` / `Authorization` (either casing) produce identical output — and
the credential slot of the output always holds the server-held credential
supplied at construction. -/
theorem c3_prepared_headers_ignore_caller_credentials (key : String) (h1 h2 : Headers)
    (hagree : ∀ k, k ≠ "x-api-key" → k ≠ "authorization" → k ≠ "Authorization" →
      hdrGet h1 k = hdrGet h2 k) :
    prepareHeadersAnthropic key h1 = prepareHeadersAnthropic key h2 ∧
    hdrGet (prepareHeadersAnthropic key h1) "x-api-key" = Option.some key ∧
    prepareHeadersOpenrouter key h1 = prepareHeadersOpenrouter key h2 ∧
    hdrGet (prepareHeadersOpenrouter key h1) "Authorization"
      = Option.some ("Bearer " ++ key) := by
  have hv := hagree "anthropic-version" (by decide) (by decide) (by decide)
  have hb := hagree "anthropic-beta" (by decide) (by decide) (by decide)
  have hu := hagree "user-agent" (by decide) (by decide) (by decide)
  refine ⟨?_, ?_, rfl, ?_⟩
  · unfold prepareHeadersAnthropic hdrGetD
    rw [hv, hb, hu]
  · exact hdrGet_cons_of_eq _ _ _ rfl
  · exact hdrGet_cons_of_eq _ _ _ rfl

/-- C3 witness: a caller presenting its own `x-api-key` gets exactly the same
prepared headers as a caller presenting no headers at all, and the forwarded
credential is the server's. -/
theorem c3_prepared_headers_ignore_caller_credentials_witness :
    prepareHeadersAnthropic "server-key" [("x-api-key", "caller-secret")]
        = prepareHeadersAnthropic "server-key" [] ∧
    hdrGet (prepareHeadersAnthropic "server-key" [("x-api-key", "caller-secret")])
        "x-api-key" = Option.some "server-key" ∧
    prepareHeadersOpenrouter "server-key" [("x-api-key", "caller-secret")]
        = prepareHeadersOpenrouter "server-key" [] ∧
    hdrGet (prepareHeadersOpenrouter "server-key" [("x-api-key", "caller-secret")])
        "Authorization" = Option.some ("Bearer " ++ "server-key") :=
  by
  have hagree : ∀ k, k ≠ "x-api-key" → k ≠ "authorization" → k ≠ "Authorization" →
      hdrGet [("x-api-key", "caller-secret")] k = hdrGet ([] : Headers) k := by
    intro k hk h2 h3
    have hfalse : (("x-api-key" : String) == k) = false :=
      beq_eq_false_iff_ne.mpr (Ne.symm hk)
    unfold hdrGet
    simp [List.find?, hfalse]
  exact c3_prepared_headers_ignore_caller_credentials "server-key"
    [("x-api-key", "caller-secret")] [] hagree

/- ### JSON string escaping (`json.dumps`, default `ensure_ascii=True`) and a
parser for the emitted form, used to state that the synthesized SSE error
frames carry a `data:` line that parses back to the ErrorEnvelope. -/

def hexDigit (n : Nat) : Char :=
  if n < 10 then Char.ofNat (48 + n) else Char.ofNat (87 + n)

def hexVal (c : Char) : Option Nat :=
  if 48 ≤ c.toNat ∧ c.toNat ≤ 57 then Option.some (c.toNat - 48)
  else if 97 ≤ c.toNat ∧ c.toNat ≤ 102 then Option.some (c.toNat - 87)
  else if 65 ≤ c.toNat ∧ c.toNat ≤ 70 then Option.some (c.toNat - 55)
  else Option.none

def hex4 (n : Nat) : List Char :=
  [hexDigit (n / 4096 % 16), hexDigit (n / 256 % 16), hexDigit (n / 16 % 16),
   hexDigit (n % 16)]

/-- One character of `json.dumps` output (CPython `ESCAPE_ASCII`): the two
JSON metacharacters and the five short escapes, printable ASCII verbatim,
everything else as `\uXXXX` (a supplementary character as a surrogate pair). -/
def escChar (c : Char) : List Char :=
  if c = '"' then ['\\', '"']
  else if c = '\\' then ['\\', '\\']
  else if c = '\n' then ['\\', 'n']
  else if c = '\r' then ['\\', 'r']
  else if c = '\t' then ['\\', 't']
  else if c.toNat = 8 then ['\\', 'b']
  else if c.toNat = 12 then ['\\', 'f']
  else if 32 ≤ c.toNat ∧ c.toNat ≤ 126 then [c]
  else if c.toNat < 65536 then '\\' :: 'u' :: hex4 c.toNat
  else
    ('\\' :: 'u' :: hex4 (55296 + (c.toNat - 65536) / 1024)) ++
    ('\\' :: 'u' :: hex4 (56320 + (c.toNat - 65536) % 1024))

def escapeL : List Char → List Char
  | [] => []
  | c :: rest => escChar c ++ escapeL rest

/-- Decode one unit of a JSON string literal body: `none` on a malformed
input, `some (none, rest)` at the closing quote, `some (some c, rest)` for one
decoded character. -/
def decodeOne : List Char → Option (Option Char × List Char)
  | [] => Option.none
  | c :: rest =>
    if c = '"' then Option.some (Option.none, rest)
    else if c = '\\' then
      match rest with
      | [] => Option.none
      | e :: rest2 =>
        if e = '"' then Option.some (Option.some '"', rest2)
        else if e = '\\' then Option.some (Option.some '\\', rest2)
        else if e = '/' then Option.some (Option.some '/', rest2)
        else if e = 'n' then Option.some (Option.some '\n', rest2)
        else if e = 'r' then Option.some (Option.some '\r', rest2)
        else if e = 't' then Option.some (Option.some '\t', rest2)
        else if e = 'b' then Option.some (Option.some (Char.ofNat 8), rest2)
        else if e = 'f' then Option.some (Option.some (Char.ofNat 12), rest2)
        else if e = 'u' then
          match rest2 with
          | h1 :: h2 :: h3 :: h4 :: rest3 =>
            match hexVal h1, hexVal h2, hexVal h3, hexVal h4 with
            | Option.some x1, Option.some x2, Option.some x3, Option.some x4 =>
              let n := x1 * 4096 + x2 * 256 + x3 * 16 + x4
              if 55296 ≤ n ∧ n ≤ 56319 then
                match rest3 with
                | g0 :: gu :: g1 :: g2 :: g3 :: g4 :: rest4 =>
                  if g0 = '\\' ∧ gu = 'u' then
                    match hexVal g1, hexVal g2, hexVal g3, hexVal g4 with
                    | Option.some y1, Option.some y2, Option.some y3, Option.some y4 =>
                      let mm := y1 * 4096 + y2 * 256 + y3 * 16 + y4
                      if 56320 ≤ mm ∧ mm ≤ 57343 then
                        Option.some (Option.some
                          (Char.ofNat (65536 + (n - 55296) * 1024 + (mm - 56320))), rest4)
                      else Option.none
                    | _, _, _, _ => Option.none
                  else Option.none
                | _ => Option.none
              else if 56320 ≤ n ∧ n ≤ 57343 then Option.none
              else Option.some (Option.some (Char.ofNat n), rest3)
            | _, _, _, _ => Option.none
          | _ => Option.none
        else Option.none
    else Option.some (Option.some c, rest)

/-- Fuel-driven loop over `decodeOne` (one fuel per decoded character). -/
def parseJStrF : Nat → List Char → Option (List Char × List Char)
  | 0, _ => Option.none
  | Nat.succ fuel, l =>
    match decodeOne l with
    | Option.none => Option.none
    | Option.some (Option.none, rest) => Option.some ([], rest)
    | Option.some (Option.some c, rest) =>
      (parseJStrF fuel rest).map (fun r => (c :: r.1, r.2))

/-- Parse the body of a JSON string literal up to its closing quote, returning
the decoded characters and the remaining input (the input length bounds the
number of decoded characters, so it serves as fuel). -/
def parseJStr (l : List Char) : Option (List Char × List Char) :=
  parseJStrF l.length l

theorem hexVal_hexDigit (d : Nat) (h : d < 16) : hexVal (hexDigit d) = Option.some d := by
  interval_cases d <;> decide

theorem char_toNat_valid (c : Char) :
    c.toNat < 55296 ∨ (57343 < c.toNat ∧ c.toNat < 1114112) := by
  have h := c.valid
  unfold UInt32.isValidChar Nat.isValidChar at h
  have he : c.toNat = c.val.toNat := rfl
  rcases h with h | ⟨h1, h2⟩
  · left
    omega
  · right
    omega

/-- One-step unfolding of `decodeOne` on a `\u` escape (the remaining input is
arbitrary, so this is definitional). -/
theorem decodeOne_u (h1 h2 h3 h4 : Char) (rest3 : List Char) :
    decodeOne ('\\' :: 'u' :: h1 :: h2 :: h3 :: h4 :: rest3) =
    (match hexVal h1, hexVal h2, hexVal h3, hexVal h4 with
     | Option.some x1, Option.some x2, Option.some x3, Option.some x4 =>
       let n := x1 * 4096 + x2 * 256 + x3 * 16 + x4
       if 55296 ≤ n ∧ n ≤ 56319 then
         match rest3 with
         | g0 :: gu :: g1 :: g2 :: g3 :: g4 :: rest4 =>
           if g0 = '\\' ∧ gu = 'u' then
             match hexVal g1, hexVal g2, hexVal g3, hexVal g4 with
             | Option.some y1, Option.some y2, Option.some y3, Option.some y4 =>
               let mm := y1 * 4096 + y2 * 256 + y3 * 16 + y4
               if 56320 ≤ mm ∧ mm ≤ 57343 then
                 Option.some (Option.some
                   (Char.ofNat (65536 + (n - 55296) * 1024 + (mm - 56320))), rest4)
               else Option.none
             | _, _, _, _ => Option.none
           else Option.none
         | _ => Option.none
       else if 56320 ≤ n ∧ n ≤ 57343 then Option.none
       else Option.some (Option.some (Char.ofNat n), rest3)
     | _, _, _, _ => Option.none) := rfl

/-- Decoding inverts escaping, one character at a time. -/
theorem decodeOne_escChar (c : Char) (M : List Char) :
    decodeOne (escChar c ++ M) = Option.some (Option.some c, M) := by
  by_cases h1 : c = '"'
  · subst h1; rfl
  by_cases h2 : c = '\\'
  · subst h2; rfl
  by_cases h3 : c = '\n'
  · subst h3; rfl
  by_cases h4 : c = '\r'
  · subst h4; rfl
  by_cases h5 : c = '\t'
  · subst h5; rfl
  by_cases h6 : c.toNat = 8
  · have hc : Char.ofNat 8 = c := by rw [← h6, Char.ofNat_toNat]
    simp only [escChar, if_neg h1, if_neg h2, if_neg h3, if_neg h4, if_neg h5, if_pos h6,
      List.cons_append, List.nil_append]
    rw [show decodeOne ('\\' :: 'b' :: M) = Option.some (Option.some (Char.ofNat 8), M)
      from rfl, hc]
  by_cases h7 : c.toNat = 12
  · have hc : Char.ofNat 12 = c := by rw [← h7, Char.ofNat_toNat]
    simp only [escChar, if_neg h1, if_neg h2, if_neg h3, if_neg h4, if_neg h5, if_neg h6,
      if_pos h7, List.cons_append, List.nil_append]
    rw [show decodeOne ('\\' :: 'f' :: M) = Option.some (Option.some (Char.ofNat 12), M)
      from rfl, hc]
  by_cases h8 : 32 ≤ c.toNat ∧ c.toNat ≤ 126
  · simp only [escChar, if_neg h1, if_neg h2, if_neg h3, if_neg h4, if_neg h5, if_neg h6,
      if_neg h7, if_pos h8, List.cons_append, List.nil_append]
    simp only [decodeOne, if_neg h1, if_neg h2]
  by_cases h9 : c.toNat < 65536
  · -- single `\uXXXX`
    have e1 := hexVal_hexDigit (c.toNat / 4096 % 16) (Nat.mod_lt _ (by omega))
    have e2 := hexVal_hexDigit (c.toNat / 256 % 16) (Nat.mod_lt _ (by omega))
    have e3 := hexVal_hexDigit (c.toNat / 16 % 16) (Nat.mod_lt _ (by omega))
    have e4 := hexVal_hexDigit (c.toNat % 16) (Nat.mod_lt _ (by omega))
    have harith : c.toNat / 4096 % 16 * 4096 + c.toNat / 256 % 16 * 256 +
        c.toNat / 16 % 16 * 16 + c.toNat % 16 = c.toNat := by omega
    have hval := char_toNat_valid c
    have hno : ¬(55296 ≤ c.toNat ∧ c.toNat ≤ 56319) := by omega
    have hno2 : ¬(56320 ≤ c.toNat ∧ c.toNat ≤ 57343) := by omega
    simp only [escChar, if_neg h1, if_neg h2, if_neg h3, if_neg h4, if_neg h5, if_neg h6,
      if_neg h7, if_neg h8, if_pos h9, hex4, List.cons_append, List.nil_append]
    rw [decodeOne_u]
    simp only [e1, e2, e3, e4]
    simp only [harith]
    rw [if_neg hno, if_neg hno2, Char.ofNat_toNat]
  · -- surrogate pair
    have hval := char_toNat_valid c
    have hup : c.toNat < 1114112 := by omega
    have hlow : 65536 ≤ c.toNat := by omega
    have hdiv : (c.toNat - 65536) / 1024 < 1024 := by omega
    have hmod : (c.toNat - 65536) % 1024 < 1024 := Nat.mod_lt _ (by omega)
    have hhiv : 55296 + (c.toNat - 65536) / 1024 < 65536 := by omega
    have hlov : 56320 + (c.toNat - 65536) % 1024 < 65536 := by omega
    have e1 := hexVal_hexDigit ((55296 + (c.toNat - 65536) / 1024) / 4096 % 16)
      (Nat.mod_lt _ (by omega))
    have e2 := hexVal_hexDigit ((55296 + (c.toNat - 65536) / 1024) / 256 % 16)
      (Nat.mod_lt _ (by omega))
    have e3 := hexVal_hexDigit ((55296 + (c.toNat - 65536) / 1024) / 16 % 16)
      (Nat.mod_lt _ (by omega))
    have e4 := hexVal_hexDigit ((55296 + (c.toNat - 65536) / 1024) % 16)
      (Nat.mod_lt _ (by omega))
    have f1 := hexVal_hexDigit ((56320 + (c.toNat - 65536) % 1024) / 4096 % 16)
      (Nat.mod_lt _ (by omega))
    have f2 := hexVal_hexDigit ((56320 + (c.toNat - 65536) % 1024) / 256 % 16)
      (Nat.mod_lt _ (by omega))
    have f3 := hexVal_hexDigit ((56320 + (c.toNat - 65536) % 1024) / 16 % 16)
      (Nat.mod_lt _ (by omega))
    have f4 := hexVal_hexDigit ((56320 + (c.toNat - 65536) % 1024) % 16)
      (Nat.mod_lt _ (by omega))
    have ha : (55296 + (c.toNat - 65536) / 1024) / 4096 % 16 * 4096 +
        (55296 + (c.toNat - 65536) / 1024) / 256 % 16 * 256 +
        (55296 + (c.toNat - 65536) / 1024) / 16 % 16 * 16 +
        (55296 + (c.toNat - 65536) / 1024) % 16 = 55296 + (c.toNat - 65536) / 1024 := by
      omega
    have hb : (56320 + (c.toNat - 65536) % 1024) / 4096 % 16 * 4096 +
        (56320 + (c.toNat - 65536) % 1024) / 256 % 16 * 256 +
        (56320 + (c.toNat - 65536) % 1024) / 16 % 16 * 16 +
        (56320 + (c.toNat - 65536) % 1024) % 16 = 56320 + (c.toNat - 65536) % 1024 := by
      omega
    simp only [escChar, if_neg h1, if_neg h2, if_neg h3, if_neg h4, if_neg h5, if_neg h6,
      if_neg h7, if_neg h8, if_neg h9, hex4, List.cons_append, List.nil_append,
      List.append_assoc]
    rw [decodeOne_u]
    simp only [e1, e2, e3, e4, f1, f2, f3, f4]
    simp only [ha, hb]
    rw [if_pos (by omega : 55296 ≤ 55296 + (c.toNat - 65536) / 1024 ∧
        55296 + (c.toNat - 65536) / 1024 ≤ 56319)]
    rw [if_pos (by omega : 56320 ≤ 56320 + (c.toNat - 65536) % 1024 ∧
        56320 + (c.toNat - 65536) % 1024 ≤ 57343)]
    have hchar : 65536 + (55296 + (c.toNat - 65536) / 1024 - 55296) * 1024 +
        (56320 + (c.toNat - 65536) % 1024 - 56320) = c.toNat := by omega
    rw [hchar, Char.ofNat_toNat]
    simp

theorem parseJStrF_succ_char (f : Nat) (l : List Char) (c : Char) (rest : List Char)
    (h : decodeOne l = Option.some (Option.some c, rest)) :
    parseJStrF (Nat.succ f) l = (parseJStrF f rest).map (fun r => (c :: r.1, r.2)) := by
  simp only [parseJStrF, h]

theorem escChar_length_pos (c : Char) : 0 < (escChar c).length := by
  unfold escChar
  repeat' split
  all_goals simp [hex4]

theorem le_length_escapeL (l : List Char) : l.length ≤ (escapeL l).length := by
  induction l with
  | nil => exact Nat.le_refl 0
  | cons c rest ih =>
    have := escChar_length_pos c
    simp only [escapeL, List.length_append, List.length_cons]
    omega

theorem parseJStrF_escape (l : List Char) : ∀ fuel rest, l.length < fuel →
    parseJStrF fuel (escapeL l ++ '"' :: rest) = Option.some (l, rest) := by
  induction l with
  | nil =>
    intro fuel rest hf
    match fuel, hf with
    | Nat.succ f, _ =>
      simp only [escapeL, List.nil_append, parseJStrF]
      rw [show decodeOne ('"' :: rest) = Option.some (Option.none, rest) from rfl]
  | cons c l ih =>
    intro fuel rest hf
    match fuel, hf with
    | Nat.succ f, hf =>
      simp only [escapeL, List.append_assoc]
      rw [parseJStrF_succ_char f _ c _ (decodeOne_escChar c (escapeL l ++ '"' :: rest))]
      rw [ih f rest (by
        simp only [List.length_cons] at hf
        omega)]
      rfl

/-- Parsing inverts `json.dumps` string escaping, for every string. -/
theorem parseJStr_escape (l rest : List Char) :
    parseJStr (escapeL l ++ '"' :: rest) = Option.some (l, rest) := by
  unfold parseJStr
  apply parseJStrF_escape
  have := le_length_escapeL l
  simp only [List.length_append, List.length_cons]
  omega

/- ### Error envelopes and SSE error frames -/

/-- The `{"error": {"type": ..., "message": ...}}` payload every failure path
of the proxies synthesizes. -/
structure ErrorEnvelope where
  type : String
  message : String
  deriving Repr, DecidableEq

/-- `json.dumps` of a string (escaped, quoted). -/
def jsonStr (s : String) : String :=
  "\"" ++ String.mk (escapeL s.data) ++ "\""

/-- `json.dumps({"error": {"type": t, "message": m}})`, with the default
separators and `ensure_ascii=True`. -/
def dumpsEnvelope (e : ErrorEnvelope) : String :=
  "\x7b\"error\": \x7b\"type\": " ++ jsonStr e.type ++
  ", \"message\": " ++ jsonStr e.message ++ "\x7d\x7d"

/-- The error chunk of the Anthropic-variant streaming forwarder:
`f'event: error\ndata: {json.dumps(error_data)}\n\n'`. -/
def sseFrameA (e : ErrorEnvelope) : String :=
  "event: error\ndata: " ++ dumpsEnvelope e ++ "\n\n"

/-- The error chunk of the OpenRouter-variant streaming forwarder:
`f'data: {json.dumps(error_data)}\n\n'`. -/
def sseFrameO (e : ErrorEnvelope) : String :=
  "data: " ++ dumpsEnvelope e ++ "\n\n"

/-- Consume an exact literal prefix. -/
def dropLit : List Char → List Char → Option (List Char)
  | [], r => Option.some r
  | c :: cs, d :: ds => if d = c then dropLit cs ds else Option.none
  | _ :: _, [] => Option.none

/-- Parse `{"error": {"type": "<t>", "message": "<m>"}}` from the head of the
input, returning the envelope and the rest. -/
def parseEnvelope (l : List Char) : Option (ErrorEnvelope × List Char) :=
  match dropLit ("\x7b\"error\": \x7b\"type\": \"").data l with
  | Option.none => Option.none
  | Option.some r1 =>
    match parseJStr r1 with
    | Option.none => Option.none
    | Option.some (t, r2) =>
      match dropLit (", \"message\": \"").data r2 with
      | Option.none => Option.none
      | Option.some r3 =>
        match parseJStr r3 with
        | Option.none => Option.none
        | Option.some (m, r4) =>
          match dropLit ("\x7d\x7d").data r4 with
          | Option.none => Option.none
          | Option.some r5 => Option.some (⟨String.mk t, String.mk m⟩, r5)

/-- Parse a synthesized SSE error frame: an optional `event: error` line, then
a `data:` line whose payload is a JSON ErrorEnvelope, then the blank-line
terminator and nothing else. -/
def parseSseErrorFrame (s : String) : Option ErrorEnvelope :=
  let l := s.data
  let l1 := match dropLit ("event: error\n").data l with
            | Option.some r => r
            | Option.none => l
  match dropLit ("data: ").data l1 with
  | Option.none => Option.none
  | Option.some r1 =>
    match parseEnvelope r1 with
    | Option.none => Option.none
    | Option.some (e, r2) =>
      match dropLit ("\n\n").data r2 with
      | Option.none => Option.none
      | Option.some [] => Option.some e
      | Option.some (_ :: _) => Option.none

theorem dropLit_append (lit r : List Char) : dropLit lit (lit ++ r) = Option.some r := by
  induction lit with
  | nil => rfl
  | cons c cs ih =>
    simp only [List.cons_append, dropLit, if_pos rfl]
    exact ih

theorem parseEnvelope_dumps (e : ErrorEnvelope) (r : List Char) :
    parseEnvelope ((dumpsEnvelope e).data ++ r) = Option.some (e, r) := by
  obtain ⟨t, m⟩ := e
  have hdecomp : (dumpsEnvelope ⟨t, m⟩).data ++ r =
      ("\x7b\"error\": \x7b\"type\": \"").data ++
      (escapeL t.data ++ '"' :: ((", \"message\": \"").data ++
        (escapeL m.data ++ '"' :: ('\x7d' :: '\x7d' :: r)))) := by
    simp only [dumpsEnvelope, jsonStr, String.data_append, List.append_assoc]
    rfl
  rw [hdecomp]
  unfold parseEnvelope
  rw [dropLit_append]
  simp only []
  rw [parseJStr_escape]
  simp only []
  rw [dropLit_append]
  simp only []
  rw [parseJStr_escape]
  simp only []
  rw [show ('\x7d' :: '\x7d' :: r) = ("\x7d\x7d").data ++ r from rfl, dropLit_append]

/-- The Anthropic-variant frame is well-formed: its `data:` line parses back
to exactly the envelope it was synthesized from. -/
theorem parseSseErrorFrame_sseFrameA (e : ErrorEnvelope) :
    parseSseErrorFrame (sseFrameA e) = Option.some e := by
  have h1 : (sseFrameA e).data = ("event: error\n").data ++ (("data: ").data ++
      ((dumpsEnvelope e).data ++ ("\n\n").data)) := by
    simp only [sseFrameA, String.data_append, List.append_assoc]
    rfl
  unfold parseSseErrorFrame
  simp only [h1]
  rw [dropLit_append]
  simp only []
  rw [dropLit_append]
  simp only []
  rw [parseEnvelope_dumps]
  rfl

/-- The OpenRouter-variant frame (no `event:` line) parses the same way. -/
theorem parseSseErrorFrame_sseFrameO (e : ErrorEnvelope) :
    parseSseErrorFrame (sseFrameO e) = Option.some e := by
  have h1 : (sseFrameO e).data = ("data: ").data ++
      ((dumpsEnvelope e).data ++ ("\n\n").data) := by
    simp only [sseFrameO, String.data_append, List.append_assoc]
  have hfail : dropLit ("event: error\n").data ((sseFrameO e).data) = Option.none := by
    rw [h1]
    rfl
  unfold parseSseErrorFrame
  simp only [hfail]
  simp only [h1]
  rw [dropLit_append]
  simp only []
  rw [parseEnvelope_dumps]
  rfl

/- ### Upstream interaction and forwarders -/

/-- How the upstream body read of a streaming call ends (the inner
`try`/`except` around the read loop). -/
inductive StreamEnding where
  | complete
  | payloadError (msg : String)
  | readTimeout (msg : String)
  deriving Repr, DecidableEq

/-- The environment's behavior on one streaming POST: a failure before any
byte is relayed (grouped by which `except` clause would catch it), or a body
delivering `chunks` and then ending as `ending`. -/
inductive StreamOutcome where
  | preTimeout (msg : String)
  | preHttpError (status : Nat) (msg : String)
  | preClientError (msg : String)
  | preOther (msg : String)
  | stream (chunks : List String) (ending : StreamEnding)
  deriving Repr, DecidableEq

/-- `_forward_stream_to_anthropic`: relay the body chunks; on a mid-read
payload error or timeout append one `stream_interrupted` SSE frame; on a
pre-stream failure yield exactly one SSE frame whose kind matches the
`except` clause (`asyncio.TimeoutError` / `ClientResponseError` /
`ClientError` / `Exception`, in source order). -/
def forwardStreamToAnthropic (o : StreamOutcome) : List String :=
  match o with
  | .stream chunks .complete => chunks
  | .stream chunks (.payloadError m) =>
    chunks ++ [sseFrameA ⟨"stream_interrupted", "Streaming interrupted due to: " ++ m⟩]
  | .stream chunks (.readTimeout m) =>
    chunks ++ [sseFrameA ⟨"stream_interrupted", "Streaming interrupted due to: " ++ m⟩]
  | .preTimeout _ => [sseFrameA ⟨"timeout_error", "Request to Anthropic API timed out"⟩]
  | .preHttpError st m =>
    [sseFrameA ⟨"api_error", "Anthropic API returned status " ++ toString st ++ ": " ++ m⟩]
  | .preClientError m => [sseFrameA ⟨"network_error", "Network error: " ++ m⟩]
  | .preOther m => [sseFrameA ⟨"unknown_error", "Unexpected error: " ++ m⟩]

/-- `_forward_stream_to_api` (OpenRouter variant): same relay loop, but the
pre-stream `except` clauses are `ClientResponseError` → `http_error`,
timeouts → `timeout_error`, and a final `Exception` catch-all → `api_error`
(which also receives every other `ClientError`). -/
def forwardStreamToApi (o : StreamOutcome) : List String :=
  match o with
  | .stream chunks .complete => chunks
  | .stream chunks (.payloadError m) =>
    chunks ++ [sseFrameO ⟨"stream_interrupted", "Streaming interrupted due to: " ++ m⟩]
  | .stream chunks (.readTimeout m) =>
    chunks ++ [sseFrameO ⟨"stream_interrupted", "Streaming interrupted due to: " ++ m⟩]
  | .preHttpError st m => [sseFrameO ⟨"http_error", "HTTP " ++ toString st ++ ": " ++ m⟩]
  | .preTimeout m => [sseFrameO ⟨"timeout_error", "Request timeout: " ++ m⟩]
  | .preClientError m => [sseFrameO ⟨"api_error", "Streaming request failed: " ++ m⟩]
  | .preOther m => [sseFrameO ⟨"api_error", "Streaming request failed: " ++ m⟩]

/-- Python exceptions that cross the handler boundary in the model. -/
inductive PyExc where
  | valueError (msg : String)
  | attributeError (msg : String)
  | keyError (key : String)
  deriving Repr, DecidableEq

/-- `{"error": {"type": t, "message": m}}` as a Python value. -/
def errorEnvelope (t m : String) : PyVal :=
  .dict [("error", .dict [("type", .str t), ("message", .str m)])]

/-- The environment's behavior on one unary POST. A 2xx response carries the
parsed JSON object body; a non-2xx response carries its status, whether its
content type is JSON, its parsed body when so, and its rendered message. -/
inductive UnaryOutcome where
  | success (body : PyDict)
  | timeout (msg : String)
  | httpError (status : Nat) (ctJson : Bool) (jsonBody : Option PyVal) (msg : String)
  | clientError (msg : String)
  | otherExc (msg : String)
  deriving Repr

/-- `_forward_to_anthropic`. On `ClientResponseError` (upstream non-2xx) the
handler's first statement evaluates `await e.text()`, but
`aiohttp.ClientResponseError` has no `text` method, so an `AttributeError`
escapes the forwarder before the `api_error` envelope (or the JSON
passthrough) can be built. -/
def forwardToAnthropic (o : UnaryOutcome) : Except PyExc PyVal :=
  match o with
  | .success b => .ok (.dict b)
  | .timeout _ =>
    .ok (errorEnvelope "timeout_error" "Request to Anthropic API timed out after 120 seconds")
  | .httpError _ _ _ _ =>
    .error (.attributeError "'ClientResponseError' object has no attribute 'text'")
  | .clientError m => .ok (errorEnvelope "network_error" ("Network error: " ++ m))
  | .otherExc m => .ok (errorEnvelope "internal_error" ("Internal server error: " ++ m))

/-- `_forward_to_api` (OpenRouter variant): one `except Exception` clause maps
every failure to an `api_error` envelope. -/
def forwardToApi (o : UnaryOutcome) : Except PyExc PyVal :=
  match o with
  | .success b => .ok (.dict b)
  | .timeout m => .ok (errorEnvelope "api_error" ("API request failed: " ++ m))
  | .httpError _ _ _ m => .ok (errorEnvelope "api_error" ("API request failed: " ++ m))
  | .clientError m => .ok (errorEnvelope "api_error" ("API request failed: " ++ m))
  | .otherExc m => .ok (errorEnvelope "api_error" ("API request failed: " ++ m))

/- ### Request validation and the caller-facing handlers -/

/-- `_validate_anthropic_request` / `_validate_openai_request` (identical in
the two variants): `model` and `messages` keys present, `messages` a nonempty
list, every message a dict with `role` and `content` keys. -/
def validateRequest (req : PyDict) : Bool :=
  dictHas req "model" && dictHas req "messages" &&
  (match dictGetD req "messages" (.list []) with
   | .list msgs =>
     !msgs.isEmpty && msgs.all (fun m =>
       match m with
       | .dict kvs => dictHas kvs "role" && dictHas kvs "content"
       | _ => false)
   | _ => false)

/-- View the validated message values as dicts (validation guarantees every
element is one; a non-dict is mapped to the empty dict only to keep the
function total). -/
def asDicts (xs : List PyVal) : List Msg :=
  xs.map (fun v => match v with | .dict kvs => kvs | _ => [])

/-- Result of one unary handler call: what it returned or raised, and the
request body handed to the forwarder (`none` when no network call happened). -/
structure UnaryRun where
  result : Except PyExc PyVal
  sent : Option PyDict
  deriving Repr

/-- Result of draining one streaming handler call. -/
structure StreamRun where
  chunks : List String
  raised : Option PyExc
  sent : Option PyDict
  deriving Repr

/-- `AnthropicRequestHandler.handle_request`: validate (raising `ValueError`
on failure, before any network use), normalize the messages, and forward the
rewritten request. -/
def handleRequestA (req : PyDict) (ttl : String) (o : UnaryOutcome) : UnaryRun :=
  if validateRequest req = false then
    ⟨.error (.valueError "Invalid Anthropic request format"), Option.none⟩
  else
    let msgs := match dictGetD req "messages" (.list []) with
                | .list ms => ms
                | _ => []
    let standardized := standardizeCacheControl ttl (asDicts msgs)
    let sentReq := dictSet req "messages" (.list (standardized.map PyVal.dict))
    ⟨forwardToAnthropic o, Option.some sentReq⟩

/-- `AnthropicRequestHandler.handle_stream_request`: same validation and
normalization; the `ValueError` raised on invalid input fires before the
first chunk is produced. -/
def handleStreamRequestA (req : PyDict) (ttl : String) (o : StreamOutcome) : StreamRun :=
  if validateRequest req = false then
    ⟨[], Option.some (.valueError "Invalid Anthropic request format"), Option.none⟩
  else
    let msgs := match dictGetD req "messages" (.list []) with
                | .list ms => ms
                | _ => []
    let standardized := standardizeCacheControl ttl (asDicts msgs)
    let sentReq := dictSet req "messages" (.list (standardized.map PyVal.dict))
    ⟨forwardStreamToAnthropic o, Option.none, Option.some sentReq⟩

/-- The kind field of an ErrorEnvelope result, when the result is a returned
envelope (a raised exception carries no kind). -/
def envelopeKind (r : Except PyExc PyVal) : Option PyVal :=
  match r with
  | .ok (.dict kvs) =>
    (match dictGet kvs "error" with
     | Option.some (.dict ekvs) => dictGet ekvs "type"
     | _ => Option.none)
  | _ => Option.none

/- ### The Anthropic-variant `/v1/messages` endpoint (C10) -/

/-- What the route handler hands back to the HTTP layer. -/
inductive EndpointResult where
  | streamingResponse (run : StreamRun)
  | jsonResponse (status : Nat) (body : PyVal)
  | httpException (status : Nat) (detail : String)
  deriving Repr

/-- `messages_endpoint` on an accepted JSON object body: read the `stream`
flag, then `request_data.pop("top_p")` — which raises `KeyError` when the key
is absent, caught only by the route's final `except Exception` clause and
surfaced as HTTP 500 — then dispatch to the streaming or unary handler and
map a returned ErrorEnvelope's kind to a status code. Returns the result and
the body handed to the forwarder (`none` when no network call happened). -/
def messagesEndpoint (body : PyDict) (ttl : String) (uo : UnaryOutcome)
    (so : StreamOutcome) : EndpointResult × Option PyDict :=
  let isStream := pyTruthy (dictGetD body "stream" (.bool false))
  if dictHas body "top_p" = false then
    (.httpException 500 "Internal server error", Option.none)
  else
    let body1 := dictErase body "top_p"
    if isStream then
      let run := handleStreamRequestA body1 ttl so
      (.streamingResponse run, run.sent)
    else
      let run := handleRequestA body1 ttl uo
      match run.result with
      | .error (.valueError msg) => (.httpException 400 msg, run.sent)
      | .error _ => (.httpException 500 "Internal server error", run.sent)
      | .ok respData =>
        match respData with
        | .dict kvs =>
          if dictHas kvs "error" then
            match dictGet kvs "error" with
            | Option.some (.dict ekvs) =>
              let et := dictGetD ekvs "type" (.str "unknown_error")
              (.jsonResponse
                (if et = .str "api_error" then 400
                 else if et = .str "network_error" then 503
                 else if et = .str "timeout_error" then 408
                 else if et = .str "json_decode_error" then 502
                 else 500) respData, run.sent)
            | _ => (.httpException 500 "Internal server error", run.sent)
          else (.jsonResponse 200 respData, run.sent)
        | _ => (.jsonResponse 200 respData, run.sent)

/- ### Claim theorems for the forwarders, handlers and endpoint -/

/-- A streaming outcome in which the initial POST itself failed. -/
def isPreFailure : StreamOutcome → Prop
  | .stream _ _ => False
  | _ => True

/-- C5: when the upstream body fails after the chunks have been relayed
(payload error or read timeout mid-stream), both streaming forwarders produce
exactly the relayed chunks, in order, followed by exactly one well-formed SSE
error frame whose `data:` line parses back to the synthesized
`stream_interrupted` ErrorEnvelope; nothing is raised (the forwarders are
total functions into chunk lists). -/
theorem c5_midstream_failure_chunks_then_one_frame (chunks : List String) (m : String) :
    (forwardStreamToAnthropic (.stream chunks (.payloadError m)) = chunks ++
        [sseFrameA ⟨"stream_interrupted", "Streaming interrupted due to: " ++ m⟩] ∧
      forwardStreamToAnthropic (.stream chunks (.readTimeout m)) = chunks ++
        [sseFrameA ⟨"stream_interrupted", "Streaming interrupted due to: " ++ m⟩] ∧
      parseSseErrorFrame
          (sseFrameA ⟨"stream_interrupted", "Streaming interrupted due to: " ++ m⟩)
        = Option.some ⟨"stream_interrupted", "Streaming interrupted due to: " ++ m⟩) ∧
    (forwardStreamToApi (.stream chunks (.payloadError m)) = chunks ++
        [sseFrameO ⟨"stream_interrupted", "Streaming interrupted due to: " ++ m⟩] ∧
      forwardStreamToApi (.stream chunks (.readTimeout m)) = chunks ++
        [sseFrameO ⟨"stream_interrupted", "Streaming interrupted due to: " ++ m⟩] ∧
      parseSseErrorFrame
          (sseFrameO ⟨"stream_interrupted", "Streaming interrupted due to: " ++ m⟩)
        = Option.some ⟨"stream_interrupted", "Streaming interrupted due to: " ++ m⟩) :=
  ⟨⟨rfl, rfl, parseSseErrorFrame_sseFrameA _⟩,
   ⟨rfl, rfl, parseSseErrorFrame_sseFrameO _⟩⟩

/-- C4 (amended): a pre-stream failure yields exactly one synthesized SSE
error frame and zero upstream bytes, in both variants; the frame's kind is
`timeout_error`, `api_error`, `network_error` or `unknown_error` in the
Anthropic variant, and `timeout_error`, `http_error` or `api_error` in the
OpenRouter variant. -/
theorem c4_prestream_failure_single_frame (o : StreamOutcome) (h : isPreFailure o) :
    (∃ e : ErrorEnvelope, forwardStreamToAnthropic o = [sseFrameA e] ∧
      parseSseErrorFrame (sseFrameA e) = Option.some e ∧
      e.type ∈ (["timeout_error", "api_error", "network_error", "unknown_error"] : List String)) ∧
    (∃ e : ErrorEnvelope, forwardStreamToApi o = [sseFrameO e] ∧
      parseSseErrorFrame (sseFrameO e) = Option.some e ∧
      e.type ∈ (["timeout_error", "http_error", "api_error"] : List String)) := by
  cases o with
  | preTimeout m =>
    exact ⟨⟨_, rfl, parseSseErrorFrame_sseFrameA _, by simp⟩,
           ⟨_, rfl, parseSseErrorFrame_sseFrameO _, by simp⟩⟩
  | preHttpError st m =>
    exact ⟨⟨_, rfl, parseSseErrorFrame_sseFrameA _, by simp⟩,
           ⟨_, rfl, parseSseErrorFrame_sseFrameO _, by simp⟩⟩
  | preClientError m =>
    exact ⟨⟨_, rfl, parseSseErrorFrame_sseFrameA _, by simp⟩,
           ⟨_, rfl, parseSseErrorFrame_sseFrameO _, by simp⟩⟩
  | preOther m =>
    exact ⟨⟨_, rfl, parseSseErrorFrame_sseFrameA _, by simp⟩,
           ⟨_, rfl, parseSseErrorFrame_sseFrameO _, by simp⟩⟩
  | stream chunks ending => exact h.elim

/-- C4 witness: a concrete pre-stream timeout. -/
theorem c4_prestream_failure_single_frame_witness :
    (∃ e : ErrorEnvelope,
      forwardStreamToAnthropic (.preTimeout "t") = [sseFrameA e] ∧
      parseSseErrorFrame (sseFrameA e) = Option.some e ∧
      e.type ∈ (["timeout_error", "api_error", "network_error", "unknown_error"] : List String)) ∧
    (∃ e : ErrorEnvelope, forwardStreamToApi (.preTimeout "t") = [sseFrameO e] ∧
      parseSseErrorFrame (sseFrameO e) = Option.some e ∧
      e.type ∈ (["timeout_error", "http_error", "api_error"] : List String)) :=
  c4_prestream_failure_single_frame (.preTimeout "t") True.intro

/-- C4 counterexample: on an upstream non-2xx during the initial POST, the
OpenRouter variant synthesizes a frame of kind `http_error`, which is not
among the four kinds the claim lists. -/
theorem c4_counterexample_openrouter_http_error_kind :
    forwardStreamToApi (.preHttpError 500 "Internal Server Error")
      = [sseFrameO ⟨"http_error", "HTTP 500: Internal Server Error"⟩] ∧
    parseSseErrorFrame (sseFrameO ⟨"http_error", "HTTP 500: Internal Server Error"⟩)
      = Option.some ⟨"http_error", "HTTP 500: Internal Server Error"⟩ ∧
    ("http_error" : String) ∉
      (["timeout_error", "api_error", "network_error", "unknown_error"] : List String) :=
  ⟨rfl, parseSseErrorFrame_sseFrameO _, by decide⟩

/-- C2 (amended): the unary forwarders return the 2xx JSON body verbatim; on
failure the Anthropic variant returns `timeout_error` / `network_error` /
`internal_error` envelopes but lets an `AttributeError` escape on an upstream
non-2xx (so the upstream-JSON passthrough is never reached), while the
OpenRouter variant never raises and returns an `api_error` envelope for every
failure, timeouts and transport errors included. -/
theorem c2_unary_forwarder_classification (b : PyDict) (st : Nat) (cj : Bool)
    (jb : Option PyVal) (m : String) :
    (forwardToAnthropic (.success b) = .ok (.dict b)) ∧
    (forwardToAnthropic (.timeout m)
      = .ok (errorEnvelope "timeout_error"
          "Request to Anthropic API timed out after 120 seconds")) ∧
    (forwardToAnthropic (.httpError st cj jb m)
      = .error (.attributeError "'ClientResponseError' object has no attribute 'text'")) ∧
    (forwardToAnthropic (.clientError m)
      = .ok (errorEnvelope "network_error" ("Network error: " ++ m))) ∧
    (forwardToAnthropic (.otherExc m)
      = .ok (errorEnvelope "internal_error" ("Internal server error: " ++ m))) ∧
    (forwardToApi (.success b) = .ok (.dict b)) ∧
    (forwardToApi (.timeout m)
      = .ok (errorEnvelope "api_error" ("API request failed: " ++ m))) ∧
    (forwardToApi (.httpError st cj jb m)
      = .ok (errorEnvelope "api_error" ("API request failed: " ++ m))) ∧
    (forwardToApi (.clientError m)
      = .ok (errorEnvelope "api_error" ("API request failed: " ++ m))) ∧
    (forwardToApi (.otherExc m)
      = .ok (errorEnvelope "api_error" ("API request failed: " ++ m))) :=
  ⟨rfl, rfl, rfl, rfl, rfl, rfl, rfl, rfl, rfl, rfl⟩

/-- C2 counterexample: an upstream non-2xx (even one with a JSON body to pass
through) makes the Anthropic unary forwarder raise an `AttributeError` past
its boundary instead of returning an `api_error` envelope, and a timeout makes
the OpenRouter unary forwarder return kind `api_error`, not `timeout_error`. -/
theorem c2_counterexample_raise_and_misclassification :
    forwardToAnthropic (.httpError 400 true
        (Option.some (errorEnvelope "invalid_request_error" "max_tokens required"))
        "Bad Request")
      = .error (.attributeError "'ClientResponseError' object has no attribute 'text'") ∧
    forwardToApi (.timeout "Request timed out")
      = .ok (errorEnvelope "api_error" "API request failed: Request timed out") ∧
    envelopeKind (forwardToApi (.timeout "Request timed out"))
      = Option.some (.str "api_error") ∧
    (PyVal.str "api_error") ≠ .str "timeout_error" :=
  ⟨rfl, rfl, rfl, by decide⟩

set_option linter.unnecessarySeqFocus false in
/-- C6 (amended): a request that fails validation makes both the unary and
the streaming handler raise `ValueError("Invalid Anthropic request format")`
— there is no ErrorEnvelope and no `invalid_request` kind — before any
network call, and the streaming handler produces no chunks. -/
theorem c6_validation_failure_raises_before_network (req : PyDict) (ttl : String)
    (uo : UnaryOutcome) (so : StreamOutcome) (h : validateRequest req = false) :
    (handleRequestA req ttl uo).result
      = .error (.valueError "Invalid Anthropic request format") ∧
    (handleRequestA req ttl uo).sent = Option.none ∧
    envelopeKind (handleRequestA req ttl uo).result = Option.none ∧
    (handleStreamRequestA req ttl so).chunks = [] ∧
    (handleStreamRequestA req ttl so).raised
      = Option.some (.valueError "Invalid Anthropic request format") ∧
    (handleStreamRequestA req ttl so).sent = Option.none := by
  refine ⟨?_, ?_, ?_, ?_, ?_, ?_⟩ <;>
    simp only [handleRequestA, handleStreamRequestA, h, reduceIte] <;> rfl

/-- C6 witness: a request missing `model`. -/
theorem c6_validation_failure_raises_before_network_witness :
    (handleRequestA [("messages", .list [.dict [("role", .str "user"),
        ("content", .str "hi")]])] "1h" (.success [])).result
      = .error (.valueError "Invalid Anthropic request format") ∧
    (handleRequestA [("messages", .list [.dict [("role", .str "user"),
        ("content", .str "hi")]])] "1h" (.success [])).sent = Option.none ∧
    envelopeKind (handleRequestA [("messages", .list [.dict [("role", .str "user"),
        ("content", .str "hi")]])] "1h" (.success [])).result = Option.none ∧
    (handleStreamRequestA [("messages", .list [.dict [("role", .str "user"),
        ("content", .str "hi")]])] "1h" (.preTimeout "t")).chunks = [] ∧
    (handleStreamRequestA [("messages", .list [.dict [("role", .str "user"),
        ("content", .str "hi")]])] "1h" (.preTimeout "t")).raised
      = Option.some (.valueError "Invalid Anthropic request format") ∧
    (handleStreamRequestA [("messages", .list [.dict [("role", .str "user"),
        ("content", .str "hi")]])] "1h" (.preTimeout "t")).sent = Option.none :=
  c6_validation_failure_raises_before_network
    [("messages", .list [.dict [("role", .str "user"), ("content", .str "hi")]])]
    "1h" (.success []) (.preTimeout "t") (by decide)

/-- C6 counterexample: on an invalid request the unary handler raises a
`ValueError`; no result carrying an error kind — let alone one named
`invalid_request` — is produced anywhere. -/
theorem c6_counterexample_no_invalid_request_kind :
    (handleRequestA [("model", .str "m"), ("messages", .list [])] "1h"
        (.success [])).result
      = .error (.valueError "Invalid Anthropic request format") ∧
    envelopeKind (handleRequestA [("model", .str "m"), ("messages", .list [])] "1h"
        (.success [])).result = Option.none ∧
    (handleRequestA [("model", .str "m"), ("messages", .list [])] "1h"
        (.success [])).sent = Option.none :=
  ⟨rfl, rfl, rfl⟩

/- ### C10: the endpoint pops top_p before anything else -/

theorem handleRequestA_sent_shape (req : PyDict) (ttl : String) (uo : UnaryOutcome) :
    (handleRequestA req ttl uo).sent = Option.none ∨
    ∃ v : PyVal, (handleRequestA req ttl uo).sent
      = Option.some (dictSet req "messages" v) := by
  unfold handleRequestA
  by_cases h : validateRequest req = false
  · rw [if_pos h]; exact Or.inl rfl
  · rw [if_neg h]; exact Or.inr ⟨_, rfl⟩

theorem handleStreamRequestA_sent_shape (req : PyDict) (ttl : String) (so : StreamOutcome) :
    (handleStreamRequestA req ttl so).sent = Option.none ∨
    ∃ v : PyVal, (handleStreamRequestA req ttl so).sent
      = Option.some (dictSet req "messages" v) := by
  unfold handleStreamRequestA
  by_cases h : validateRequest req = false
  · rw [if_pos h]; exact Or.inl rfl
  · rw [if_neg h]; exact Or.inr ⟨_, rfl⟩

theorem messagesEndpoint_snd_stream (body : PyDict) (ttl : String) (uo : UnaryOutcome)
    (so : StreamOutcome) (h : ¬dictHas body "top_p" = false)
    (hs : pyTruthy (dictGetD body "stream" (.bool false)) = true) :
    (messagesEndpoint body ttl uo so).2
      = (handleStreamRequestA (dictErase body "top_p") ttl so).sent := by
  simp only [messagesEndpoint]
  rw [if_neg h, if_pos hs]

theorem messagesEndpoint_snd_unary (body : PyDict) (ttl : String) (uo : UnaryOutcome)
    (so : StreamOutcome) (h : ¬dictHas body "top_p" = false)
    (hs : ¬pyTruthy (dictGetD body "stream" (.bool false)) = true) :
    (messagesEndpoint body ttl uo so).2
      = (handleRequestA (dictErase body "top_p") ttl uo).sent := by
  simp only [messagesEndpoint]
  rw [if_neg h, if_neg hs]
  rcases hr : (handleRequestA (dictErase body "top_p") ttl uo).result with exc | r
  · rcases exc with m | m | m <;> rfl
  · rcases r with _ | b | n | st | xs | kvs
    · rfl
    · rfl
    · rfl
    · rfl
    · rfl
    · simp only []
      by_cases he : dictHas kvs "error" = true
      · rw [if_pos he]
        rcases hg : dictGet kvs "error" with _ | v
        · rfl
        · rcases v with _ | b | n | st2 | xs2 | ekvs <;> rfl
      · rw [if_neg he]

theorem sent_body_lacks_top_p (req : PyDict) (v : PyVal) :
    dictHas (dictSet (dictErase req "top_p") "messages" v) "top_p" = false := by
  rw [dictHas_set_ne _ _ _ _ (show ("top_p" : String) ≠ "messages" by decide)]
  exact dictHas_erase req "top_p"

/-- C10: `messages_endpoint` executes `request_data.pop("top_p")`
unconditionally before validation or any handler call, so (1) a body without
`top_p` makes the route fail with HTTP 500 "Internal server error" (the
`KeyError` lands in the final `except Exception` clause) while nothing is
forwarded, and (2) whenever a body does reach a forwarder it no longer
contains `top_p`. -/
theorem c10_top_p_popped_before_everything (body : PyDict) (ttl : String)
    (uo : UnaryOutcome) (so : StreamOutcome) :
    (dictHas body "top_p" = false →
      messagesEndpoint body ttl uo so
        = (.httpException 500 "Internal server error", Option.none)) ∧
    (∀ sent : PyDict, (messagesEndpoint body ttl uo so).2 = Option.some sent →
      dictHas sent "top_p" = false) := by
  constructor
  · intro h
    simp only [messagesEndpoint, h, reduceIte]
  · intro sent hsent
    by_cases h : dictHas body "top_p" = false
    · simp only [messagesEndpoint, h, reduceIte] at hsent
      exact Option.noConfusion hsent
    · by_cases hs : pyTruthy (dictGetD body "stream" (.bool false)) = true
      · rw [messagesEndpoint_snd_stream body ttl uo so h hs] at hsent
        rcases handleStreamRequestA_sent_shape (dictErase body "top_p") ttl so with
          hnone | ⟨v, hv⟩
        · rw [hnone] at hsent; exact Option.noConfusion hsent
        · rw [hv] at hsent
          cases Option.some.inj hsent
          exact sent_body_lacks_top_p body v
      · rw [messagesEndpoint_snd_unary body ttl uo so h hs] at hsent
        rcases handleRequestA_sent_shape (dictErase body "top_p") ttl uo with
          hnone | ⟨v, hv⟩
        · rw [hnone] at hsent; exact Option.noConfusion hsent
        · rw [hv] at hsent
          cases Option.some.inj hsent
          exact sent_body_lacks_top_p body v

/-- C10 witness: a body without `top_p` gets the 500 with nothing sent; for a
valid body with `top_p`, the body that reaches the forwarder lacks `top_p`. -/
theorem c10_top_p_popped_before_everything_witness :
    messagesEndpoint [("model", .str "m"),
        ("messages", .list [.dict [("role", .str "user"), ("content", .str "hi")]])]
        "1h" (.success []) (.preTimeout "t")
      = (.httpException 500 "Internal server error", Option.none) ∧
    dictHas ((messagesEndpoint [("model", .str "m"), ("top_p", .int 1),
        ("messages", .list [.dict [("role", .str "user"), ("content", .str "hi")]])]
        "1h" (.success []) (.preTimeout "t")).2.getD []) "top_p" = false := by
  constructor
  · exact (c10_top_p_popped_before_everything [("model", .str "m"),
      ("messages", .list [.dict [("role", .str "user"), ("content", .str "hi")]])]
      "1h" (.success []) (.preTimeout "t")).1 (by decide)
  · rcases hx : (messagesEndpoint [("model", .str "m"), ("top_p", .int 1),
        ("messages", .list [.dict [("role", .str "user"), ("content", .str "hi")]])]
        "1h" (.success []) (.preTimeout "t")).2 with _ | sent
    · rfl
    · exact (c10_top_p_popped_before_everything [("model", .str "m"), ("top_p", .int 1),
        ("messages", .list [.dict [("role", .str "user"), ("content", .str "hi")]])]
        "1h" (.success []) (.preTimeout "t")).2 sent hx

end ClaudeCacheProxy
